import Mathlib

/-!
Verification of the iCalendar interchange core of the forceCalendar/salesforce
repository: the `ICSParser` text transcoder, the `EventSearch` engine and the
`ICSHandler` import/export orchestrator.

JavaScript strings are modelled as `List Char` (`JStr`); JS `Date` values as a
wall-clock record (`JSDate`), with the ambient system timezone modelled as
UTC (offset 0), so the `Date.UTC` and local constructors coincide.  JS string
methods (`replace`, `indexOf`, `substring`, `split`, `includes`, ...) are
embedded as executable functions on `List Char` mirroring their left-to-right
scan semantics.
-/

/-- JavaScript string, as a list of characters. -/
abbrev JStr := List Char

/-- Coerce a Lean string literal into the model's string type. -/
def jstr (s : String) : JStr := s.toList

/-- JS `String.prototype.replace` with a one-character (non-regex-special)
global pattern: every occurrence of `a` is replaced by `rep`. -/
def replace1 (a : Char) (rep : JStr) : JStr → JStr
  | [] => []
  | x :: tl => if x = a then rep ++ replace1 a rep tl else x :: replace1 a rep tl

/-- JS global `replace` with a two-character pattern `ab`: left-to-right,
non-overlapping, the scan resumes after a replacement. -/
def replace2 (a b : Char) (rep : JStr) : JStr → JStr
  | x :: y :: tl =>
      if x = a ∧ y = b then rep ++ replace2 a b rep tl
      else x :: replace2 a b rep (y :: tl)
  | l => l

/-- JS global `replace` with a three-character pattern `abc`. -/
def replace3 (a b c : Char) (rep : JStr) : JStr → JStr
  | x :: y :: z :: tl =>
      if x = a ∧ y = b ∧ z = c then rep ++ replace3 a b c rep tl
      else x :: replace3 a b c rep (y :: z :: tl)
  | l => l

/-- JS `replace` with a plain string pattern (no regex): only the FIRST
occurrence is replaced. -/
def replaceFirst (pat rep : JStr) : JStr → JStr
  | [] => []
  | x :: tl =>
      if pat.isPrefixOf (x :: tl) then rep ++ (x :: tl).drop pat.length
      else x :: replaceFirst pat rep tl

/-- JS `String.prototype.includes` (substring test). -/
def includesJ (hay pat : JStr) : Bool :=
  match hay with
  | [] => pat.isEmpty
  | c :: tl => pat.isPrefixOf (c :: tl) || includesJ tl pat

/-- JS `String.prototype.indexOf` for a single character, `none` for -1. -/
def idxOf (c : Char) : JStr → Option Nat
  | [] => none
  | x :: tl => if x = c then some 0 else (idxOf c tl).map (· + 1)

/-- Whitespace recognised by JS `trim` (the characters that occur in ICS
text; the exotic Unicode space classes are not needed by the claims). -/
def isWS (c : Char) : Bool := c = ' ' ∨ c = '\t' ∨ c = '\r' ∨ c = '\n'

/-- JS `toLowerCase`, ASCII fragment (ICS keywords and query text). -/
def lowerJ (l : JStr) : JStr := l.map Char.toLower

/-!
Escaping (`ICSParser.escapeText` / `ICSParser.unescapeText`).  The source
applies four global `replace` passes in a fixed order each way.
-/

/-- ICSParser.escapeText: backslash, then semicolon, then comma, then
newline, each escaped by a backslash-prefixed form. -/
def escapeText (text : JStr) : JStr :=
  if text = [] then []
  else
    replace1 '\n' ['\\', 'n']
      (replace1 ',' ['\\', ',']
        (replace1 ';' ['\\', ';']
          (replace1 '\\' ['\\', '\\'] text)))

/-- ICSParser.unescapeText: the four inverse substitutions, in inverse
order (`\n` first, bare `\\` last). -/
def unescapeText (text : JStr) : JStr :=
  if text = [] then []
  else
    replace2 '\\' '\\' ['\\']
      (replace2 '\\' ';' [';']
        (replace2 '\\' ',' [',']
          (replace2 '\\' 'n' ['\n'] text)))

/-- Per-character expansion equal to the composition of the four escape
passes (proved below). -/
def escChar (c : Char) : JStr :=
  if c = '\\' then ['\\', '\\']
  else if c = ';' then ['\\', ';']
  else if c = ',' then ['\\', ',']
  else if c = '\n' then ['\\', 'n']
  else [c]

/-- Stage reached after undoing the newline coding. -/
def escChar3 (c : Char) : JStr :=
  if c = '\\' then ['\\', '\\']
  else if c = ';' then ['\\', ';']
  else if c = ',' then ['\\', ',']
  else [c]

/-- Stage reached after also undoing the comma coding. -/
def escChar4 (c : Char) : JStr :=
  if c = '\\' then ['\\', '\\']
  else if c = ';' then ['\\', ';']
  else [c]

/-- Stage reached after also undoing the semicolon coding. -/
def escChar5 (c : Char) : JStr :=
  if c = '\\' then ['\\', '\\'] else [c]

/-- The string contains a backslash immediately followed by the letter `n`
(the configuration on which the inverse law breaks). -/
def hasBN : JStr → Bool
  | c :: d :: tl => (c = '\\' && d = 'n') || hasBN (d :: tl)
  | _ => false

/-- A string is free of the hazardous pattern: no backslash immediately
followed by the letter `n`. -/
def noBN (l : JStr) : Prop := hasBN l = false

instance (l : JStr) : Decidable (noBN l) :=
  inferInstanceAs (Decidable (hasBN l = false))

/-- Character-by-character expansion of a string. -/
def expandWith (f : Char → JStr) : JStr → JStr
  | [] => []
  | c :: tl => f c ++ expandWith f tl

/-- JS split on the regex pattern of a carriage return optionally followed by
a newline: split points are `\r\n` pairs and lone `\n`; a lone `\r` is kept. -/
def splitNL : JStr → List JStr
  | [] => [[]]
  | '\r' :: '\n' :: tl => [] :: splitNL tl
  | '\n' :: tl => [] :: splitNL tl
  | c :: tl =>
      match splitNL tl with
      | [] => [[c]]
      | h :: t => (c :: h) :: t

/-- Join a list of logical lines with CRLF separators (JS `Array.join`). -/
def joinCRLF : List JStr → JStr
  | [] => []
  | [l] => l
  | l :: ls => l ++ '\r' :: '\n' :: joinCRLF ls

/-- Join with an arbitrary separator string. -/
def joinSep (sep : JStr) : List JStr → JStr
  | [] => []
  | [l] => l
  | l :: ls => l ++ sep ++ joinSep sep ls

/-- JS `substr(start, len)` for non-negative arguments. -/
def substrJ (l : JStr) (st len : Nat) : JStr := (l.drop st).take len

/-- ASCII decimal digit test. -/
def isDigitJ (c : Char) : Bool := '0' ≤ c ∧ c ≤ '9'

/-- Fuelled digit renderer (structural recursion so that the kernel can
evaluate it; `natDec` supplies always-sufficient fuel). -/
def natDecF : Nat → Nat → List Char
  | 0, _ => []
  | fuel + 1, n =>
      if n < 10 then [Char.ofNat (48 + n)]
      else natDecF fuel (n / 10) ++ [Char.ofNat (48 + n % 10)]

/-- Decimal rendering of a natural number (JS `String(n)` for integers). -/
def natDec (n : Nat) : JStr := natDecF (n + 1) n

/-- Decimal rendering of an integer. -/
def intDec (n : Int) : JStr :=
  if n < 0 then '-' :: natDec (-n).toNat else natDec n.toNat

/-- JS `String.prototype.padStart(2, '0')`. -/
def padStart2 (s : JStr) : JStr := List.replicate (2 - s.length) '0' ++ s

/-- Numeric value of an ASCII digit. -/
def digitVal (c : Char) : Nat := c.toNat - 48

/-- JS `parseInt` on the strings this code feeds it: parses a leading run of
decimal digits, `NaN` (`none`) when there is none.  (Sign/whitespace/radix
handling of full `parseInt` is never exercised by the verified paths.) -/
def parseIntJ (l : JStr) : Option Int :=
  let ds := l.takeWhile isDigitJ
  if ds.isEmpty then none
  else some (ds.foldl (fun a c => a * 10 + (digitVal c : Int)) 0)

/-- JS `Number(str)` coercion on the strings this code feeds it: the empty
string is 0, an all-digit string is its value, anything else is `NaN`. -/
def jsNumber (l : JStr) : Option Int :=
  if l = [] then some 0
  else if l.all isDigitJ then some (l.foldl (fun a c => a * 10 + (digitVal c : Int)) 0)
  else none

/-!
JS `Date` model.  A date is either the Invalid Date (any `NaN` component) or
a wall-clock tuple as produced by the `new Date(y, mo, d, h, mi, s)`
constructor (month 0-based).  The ambient system timezone is modelled as UTC
(offset 0), so the `Date.UTC` and local constructors coincide; the claims
never depend on a particular ambient offset.  The constructor's rollover
normalization for out-of-range components is not modelled: no verified code
path constructs out-of-range components.
-/

inductive JSDate where
  | invalid : JSDate
  | mk (year month day hour minute second : Int) : JSDate
deriving Repr, DecidableEq

/-- JS two-digit-year rule of `new Date(y, ...)`: years 0..99 mean 1900+y. -/
def jsDate6 (y mo d h mi s : Int) : JSDate :=
  JSDate.mk (if 0 ≤ y ∧ y ≤ 99 then y + 1900 else y) mo d h mi s

/-- Date constructor with possibly-NaN numeric arguments. -/
def jsDateOpt (y mo d h mi s : Option Int) : JSDate :=
  match y, mo, d, h, mi, s with
  | some a, some b, some c, some d', some e, some f => jsDate6 a b c d' e f
  | _, _, _, _, _, _ => JSDate.invalid

def getFullYear : JSDate → Option Int
  | JSDate.invalid => none
  | JSDate.mk y _ _ _ _ _ => some y

def getMonth : JSDate → Option Int
  | JSDate.invalid => none
  | JSDate.mk _ mo _ _ _ _ => some mo

def getDate : JSDate → Option Int
  | JSDate.invalid => none
  | JSDate.mk _ _ d _ _ _ => some d

def getHours : JSDate → Option Int
  | JSDate.invalid => none
  | JSDate.mk _ _ _ h _ _ => some h

def getMinutes : JSDate → Option Int
  | JSDate.invalid => none
  | JSDate.mk _ _ _ _ mi _ => some mi

def getSeconds : JSDate → Option Int
  | JSDate.invalid => none
  | JSDate.mk _ _ _ _ _ s => some s

/-- Days since the Unix epoch of a civil date (month 1-based), by the
standard civil-from-days algorithm with floor division. -/
def daysFromCivil (y m d : Int) : Int :=
  let y' := if m ≤ 2 then y - 1 else y
  let era := Int.fdiv y' 400
  let yoe := y' - era * 400
  let mp := (m + 9) % 12
  let doy := (153 * mp + 2) / 5 + d - 1
  let doe := yoe * 365 + yoe / 4 - yoe / 100 + doy
  era * 146097 + doe - 719468

/-- JS `Date.prototype.getTime`: milliseconds since epoch, `none` for NaN. -/
def getTime : JSDate → Option Int
  | JSDate.invalid => none
  | JSDate.mk y mo d h mi s =>
      some ((daysFromCivil y (mo + 1) d * 86400 + h * 3600 + mi * 60 + s) * 1000)

/-- JS `a >= b` on dates: false when either side is NaN. -/
def dateGE (a b : JSDate) : Bool :=
  match getTime a, getTime b with
  | some x, some y => y ≤ x
  | _, _ => false

/-- JS `a <= b` on dates: false when either side is NaN. -/
def dateLE (a b : JSDate) : Bool :=
  match getTime a, getTime b with
  | some x, some y => x ≤ y
  | _, _ => false

/-!
The Event record, the unit exchanged by parser, search engine and handler.
Optional string fields are `Option JStr` (`none` for JS `undefined`/`null`);
the parser initialises several of them to the empty string.
-/

inductive JOrganizer where
  | str (s : JStr) : JOrganizer
  | obj (email name : Option JStr) : JOrganizer
deriving Repr, DecidableEq

inductive JAttendee where
  | obj (email name : JStr) : JAttendee
  | raw (s : JStr) : JAttendee
deriving Repr, DecidableEq

structure JReminder where
  minutes : Option Int := none
deriving Repr, DecidableEq

inductive JRecurrence where
  | str (s : JStr) : JRecurrence
  | obj (freq : Option JStr) (interval count : Option Int) (until_ : Option JSDate)
      (byDay byMonth : Option (List JStr)) : JRecurrence
deriving Repr, DecidableEq

structure Event where
  id : Option JStr := none
  title : Option JStr := none
  description : Option JStr := none
  location : Option JStr := none
  category : Option JStr := none
  start : Option JSDate := none
  end_ : Option JSDate := none
  allDay : Bool := false
  status : Option JStr := none
  showAs : Option JStr := none
  organizer : Option JOrganizer := none
  attendees : List JAttendee := []
  recurrence : Option JRecurrence := none
  reminders : List JReminder := []
  timezone : Option JStr := none
  categories : Option (List JStr) := none
deriving Repr, DecidableEq

/-- JS truthiness of an optional string: `undefined`, `null` and the empty
string are falsy. -/
def truthyStr : Option JStr → Bool
  | none => false
  | some s => !s.isEmpty

namespace ICSParser

/-- ICSParser.createEmptyEvent. -/
def createEmptyEvent : Event :=
  { id := none, title := some [], description := some [], start := none,
    end_ := none, allDay := false, location := some [], category := some [],
    status := some (jstr "confirmed"), showAs := some (jstr "busy"),
    attendees := [], reminders := [] }

/-- The ICS property to record field mapping (ICSParser.propertyMap). -/
def propertyMap : List (JStr × JStr) :=
  [(jstr "SUMMARY", jstr "title"), (jstr "DESCRIPTION", jstr "description"),
   (jstr "LOCATION", jstr "location"), (jstr "DTSTART", jstr "start"),
   (jstr "DTEND", jstr "end"), (jstr "UID", jstr "id"),
   (jstr "CATEGORIES", jstr "category"), (jstr "STATUS", jstr "status"),
   (jstr "TRANSP", jstr "showAs"), (jstr "ORGANIZER", jstr "organizer"),
   (jstr "ATTENDEE", jstr "attendees"), (jstr "RRULE", jstr "recurrence"),
   (jstr "EXDATE", jstr "excludeDates")]

def lookupProp (p : JStr) : Option JStr :=
  (propertyMap.find? (fun kv => kv.1 = p)).map (fun kv => kv.2)

/-- Strip a leading `TZID=<name>:` prefix (regex `^TZID=[^:]+:`). -/
def stripTZID (l : JStr) : JStr :=
  if (jstr "TZID=").isPrefixOf l then
    match idxOf ':' (l.drop 5) with
    | some k => if 1 ≤ k then (l.drop 5).drop (k + 1) else l
    | none => l
  else l

/-- ICSParser.parseDate. -/
def parseDate (dateString : JStr) (property : JStr) : JSDate :=
  let ds := stripTZID dateString
  if includesJ property (jstr "VALUE=DATE") || ds.length = 8 then
    jsDateOpt (jsNumber (substrJ ds 0 4)) ((jsNumber (substrJ ds 4 2)).map (· - 1))
      (jsNumber (substrJ ds 6 2)) (some 0) (some 0) (some 0)
  else
    let year := parseIntJ (substrJ ds 0 4)
    let month := (parseIntJ (substrJ ds 4 2)).map (· - 1)
    let day := parseIntJ (substrJ ds 6 2)
    let hour : Int := (parseIntJ (substrJ ds 9 2)).getD 0
    let minute : Int := (parseIntJ (substrJ ds 11 2)).getD 0
    let second : Int := (parseIntJ (substrJ ds 13 2)).getD 0
    if ds.getLast? = some 'Z' then
      jsDateOpt year month day (some hour) (some minute) (some second)
    else
      jsDateOpt year month day (some hour) (some minute) (some second)

/-- Numeric component rendering used by formatDate: `String(NaN)` is "NaN". -/
def numS : Option Int → JStr
  | none => jstr "NaN"
  | some n => intDec n

/-- ICSParser.formatDate. -/
def formatDate (d : JSDate) (dateOnly : Bool) : JStr :=
  let year := numS (getFullYear d)
  let month := padStart2 (numS ((getMonth d).map (· + 1)))
  let day := padStart2 (numS (getDate d))
  if dateOnly then year ++ month ++ day
  else
    year ++ month ++ day ++ ['T'] ++ padStart2 (numS (getHours d)) ++
      padStart2 (numS (getMinutes d)) ++ padStart2 (numS (getSeconds d))

/-- The inbound STATUS value mapping. -/
def statusIn (v : JStr) : JStr :=
  if v = jstr "TENTATIVE" then jstr "tentative"
  else if v = jstr "CONFIRMED" then jstr "confirmed"
  else if v = jstr "CANCELLED" then jstr "cancelled"
  else jstr "confirmed"

/-- ICSParser.parseProperty. -/
def parseProperty (property value : JStr) (event : Event) : Event :=
  let propName := property.takeWhile (fun c => c ≠ ';')
  match lookupProp propName with
  | none => event
  | some _ =>
      if propName = jstr "DTSTART" then
        let ev := { event with start := some (parseDate value property) }
        if includesJ property (jstr "VALUE=DATE") then { ev with allDay := true } else ev
      else if propName = jstr "DTEND" then
        let ev := { event with end_ := some (parseDate value property) }
        if includesJ property (jstr "VALUE=DATE") then { ev with allDay := true } else ev
      else if propName = jstr "SUMMARY" then
        { event with title := some (unescapeText value) }
      else if propName = jstr "DESCRIPTION" then
        { event with description := some (unescapeText value) }
      else if propName = jstr "LOCATION" then
        { event with location := some (unescapeText value) }
      else if propName = jstr "UID" then
        { event with id := some value }
      else if propName = jstr "CATEGORIES" then
        { event with category := some (value.takeWhile (fun c => c ≠ ',')) }
      else if propName = jstr "STATUS" then
        { event with status := some (statusIn value) }
      else if propName = jstr "TRANSP" then
        let v := if value = jstr "TRANSPARENT" then jstr "free" else jstr "busy"
        { event with showAs := some v }
      else if propName = jstr "ORGANIZER" then
        { event with organizer := some (.str (replaceFirst (jstr "mailto:") [] value)) }
      else if propName = jstr "ATTENDEE" then
        let email := replaceFirst (jstr "mailto:") [] value
        { event with attendees :=
            event.attendees ++ [.obj email (email.takeWhile (fun c => c ≠ '@'))] }
      else if propName = jstr "RRULE" then
        { event with recurrence := some (.str value) }
      else event

/-- ICSParser.normalizeEvent.  `generateUID` is impure (time + randomness) in
the source; the model receives the candidate id and reports whether it was
consumed.  The `new Date` re-coercion branches are identities here because
the model's start and end fields are always `JSDate`s already. -/
def normalizeEvent (genId : JStr) (event : Event) : Event × Bool :=
  let (ev1, used) :=
    if truthyStr event.id then (event, false)
    else ({ event with id := some genId }, true)
  let ev2 := if truthyStr ev1.title then ev1 else { ev1 with title := some (jstr "Untitled Event") }
  (ev2, used)

/-- Parser scan state: accumulated events, the open event, the two block
flags, and the count of generated ids (threading the impure generator). -/
structure PState where
  events : List Event := []
  current : Option Event := none
  inEvent : Bool := false
  inAlarm : Bool := false
  genCount : Nat := 0
deriving Repr

/-- The property/value split of one logical line: `colonIndex`,
`semicolonIndex`, and the separator choice exactly as in the source (a
semicolon only wins when it occurs before the first colon; the value always
starts after the first colon). -/
def sepSplit (line : JStr) : Option (JStr × JStr) :=
  let colonIndex := idxOf ':' line
  let semicolonIndex := idxOf ';' line
  let separatorIndex :=
    match semicolonIndex, colonIndex with
    | some si, some ci => if si < ci then some si else some ci
    | some _, none => none
    | none, some ci => some ci
    | none, none => none
  match separatorIndex, colonIndex with
  | some sep, some ci => some (line.take sep, line.drop (ci + 1))
  | _, _ => none

/-- One line of the ICSParser.parse scan loop. -/
def stepLine (gen : Nat → JStr) (st : PState) (line : JStr) : PState :=
  if line.all isWS then st
  else
    match sepSplit line with
    | none => st
    | some (property, value) =>
        if property = jstr "BEGIN" then
          if value = jstr "VEVENT" then
            { st with inEvent := true, current := some createEmptyEvent }
          else if value = jstr "VALARM" then { st with inAlarm := true }
          else st
        else if property = jstr "END" then
          if value = jstr "VEVENT" then
            match st.current with
            | some ev =>
                let (ev', used) := normalizeEvent (gen st.genCount) ev
                { st with events := st.events ++ [ev'], current := none,
                          inEvent := false,
                          genCount := st.genCount + (if used then 1 else 0) }
            | none => st
          else if value = jstr "VALARM" then { st with inAlarm := false }
          else st
        else if st.inEvent && !st.inAlarm && st.current.isSome then
          { st with current := st.current.map (parseProperty property value) }
        else st

/-- ICSParser.unfoldLines. -/
def unfoldLines (icsString : JStr) : List JStr :=
  splitNL (replace2 '\n' ' ' [] (replace3 '\r' '\n' ' ' [] icsString))

def initPState : PState := {}

/-- ICSParser.parse, with the impure unique-id generator injected as `gen`
(the n-th generated id of the call). -/
def parse (gen : Nat → JStr) (icsString : JStr) : List Event :=
  ((unfoldLines icsString).foldl (stepLine gen) initPState).events

/-- Run of the scan loop over already-unfolded lines. -/
def parseLines (gen : Nat → JStr) (lines : List JStr) (st : PState) : PState :=
  lines.foldl (stepLine gen) st

/-- The property name a line would dispatch on, if it has a separator. -/
def lineProp (l : JStr) : Option JStr := (sepSplit l).map (fun pv => pv.1)

/-- The line finalizes a VEVENT: its extracted property/value pair is
END / VEVENT. -/
def isEndVEventLine (l : JStr) : Bool :=
  match sepSplit l with
  | some (p, v) => p = jstr "END" && v = jstr "VEVENT"
  | none => false

/-- ICSParser.objectToRRule. -/
def objectToRRule : JRecurrence → JStr
  | .str s => s
  | .obj freq interval count until_ byDay byMonth =>
      let parts :=
        (match freq with
         | some f => if f ≠ [] then [jstr "FREQ=" ++ f.map Char.toUpper] else []
         | none => []) ++
        (match interval with
         | some i => if i ≠ 0 then [jstr "INTERVAL=" ++ intDec i] else []
         | none => []) ++
        (match count with
         | some c => if c ≠ 0 then [jstr "COUNT=" ++ intDec c] else []
         | none => []) ++
        (match until_ with
         | some u => [jstr "UNTIL=" ++ formatDate u false]
         | none => []) ++
        (match byDay with
         | some l => [jstr "BYDAY=" ++ joinSep [','] l]
         | none => []) ++
        (match byMonth with
         | some l => [jstr "BYMONTH=" ++ joinSep [','] l]
         | none => [])
      joinSep [';'] parts

/-- Attendee email extraction in export (`attendee.email || attendee`,
followed by the `if (email)` truthiness guard). -/
def attendeeEmail : JAttendee → Option JStr
  | .obj e _ => some (if e ≠ [] then e else jstr "[object Object]")
  | .raw s => if s ≠ [] then some s else none

/-- ICSParser.eventToICS.  `uidCand` is the generated-UID candidate for this
event, `now` the DTSTAMP instant, `ambientTZ` the system timezone name.  The
source would throw on a missing start date; claims always supply one, and
the model renders the Invalid Date in that unreached case. -/
def eventToICS (uidCand : JStr) (now : JSDate) (ambientTZ : JStr) (event : Event) :
    List JStr :=
  [jstr "BEGIN:VEVENT"] ++
  [jstr "UID:" ++ (match event.id with
    | some i => if i ≠ [] then i else uidCand
    | none => uidCand)] ++
  [jstr "DTSTAMP:" ++ formatDate now false] ++
  (if event.allDay then
    [jstr "DTSTART;VALUE=DATE:" ++ formatDate (event.start.getD JSDate.invalid) true] ++
    (match event.end_ with
     | some e => [jstr "DTEND;VALUE=DATE:" ++ formatDate e true]
     | none => [])
  else
    let tzid := match event.timezone with
      | some t => if t ≠ [] then t else ambientTZ
      | none => ambientTZ
    [jstr "DTSTART;TZID=" ++ tzid ++ ':' ::
      formatDate (event.start.getD JSDate.invalid) false] ++
    (match event.end_ with
     | some e => [jstr "DTEND;TZID=" ++ tzid ++ ':' :: formatDate e false]
     | none => [])) ++
  (if truthyStr event.title then
    [jstr "SUMMARY:" ++ escapeText (event.title.getD [])] else []) ++
  (if truthyStr event.description then
    [jstr "DESCRIPTION:" ++ escapeText (event.description.getD [])] else []) ++
  (if truthyStr event.location then
    [jstr "LOCATION:" ++ escapeText (event.location.getD [])] else []) ++
  (if truthyStr event.status then
    [jstr "STATUS:" ++
      (let v := event.status.getD []
       if v = jstr "tentative" then jstr "TENTATIVE"
       else if v = jstr "confirmed" then jstr "CONFIRMED"
       else if v = jstr "cancelled" then jstr "CANCELLED"
       else jstr "CONFIRMED")] else []) ++
  (if truthyStr event.showAs then
    [jstr "TRANSP:" ++
      (let v := event.showAs.getD []
       if v = jstr "busy" then jstr "OPAQUE"
       else if v = jstr "free" then jstr "TRANSPARENT"
       else jstr "OPAQUE")] else []) ++
  (if truthyStr event.category then
    [jstr "CATEGORIES:" ++ event.category.getD []] else []) ++
  (match event.organizer with
   | some (.str s) =>
       if s ≠ [] then [jstr "ORGANIZER:mailto:" ++ s] else []
   | some (.obj email name) =>
       [jstr "ORGANIZER:mailto:" ++
         (match email with
          | some e => if e ≠ [] then e else (name.getD (jstr "undefined"))
          | none => name.getD (jstr "undefined"))]
   | none => []) ++
  (if event.attendees ≠ [] then
    event.attendees.foldr (fun a acc =>
      (match attendeeEmail a with
       | some e => [jstr "ATTENDEE:mailto:" ++ e]
       | none => []) ++ acc) []
   else []) ++
  (match event.recurrence with
   | some (.str s) =>
       if s = [] then []
       else if (jstr "RRULE:").isPrefixOf s then [s]
       else [jstr "RRULE:" ++ s]
   | some r => [jstr "RRULE:" ++ objectToRRule r]
   | none => []) ++
  (if event.reminders ≠ [] then
    event.reminders.foldr (fun r acc =>
      [jstr "BEGIN:VALARM", jstr "ACTION:DISPLAY",
       jstr "TRIGGER:-PT" ++
         intDec (match r.minutes with
                 | some n => if n ≠ 0 then n else 15
                 | none => 15) ++ ['M'],
       jstr "DESCRIPTION:" ++
         (if truthyStr event.title then event.title.getD [] else jstr "Reminder"),
       jstr "END:VALARM"] ++ acc) []
   else []) ++
  [jstr "END:VEVENT"]

/-- Raw 74-character chunks of a continuation tail. -/
def chunks74 (rem : JStr) : List JStr :=
  if h : rem = [] then [] else rem.take 74 :: chunks74 (rem.drop 74)
termination_by rem.length
decreasing_by
  have hne : rem.length ≠ 0 := fun h0 => h (List.length_eq_zero.mp h0)
  simp [List.length_drop]
  omega

/-- The physical pieces of one logical line after folding: the first 75
characters, then space-prefixed 74-character continuations. -/
def piecesOf (line : JStr) : List JStr :=
  if line.length ≤ 75 then [line]
  else line.take 75 :: (chunks74 (line.drop 75)).map (fun c => ' ' :: c)

/-- ICSParser.foldLines, per line: the folded pieces joined with CRLF. -/
def foldLine (line : JStr) : JStr := joinCRLF (piecesOf line)

def foldLines (lines : List JStr) : List JStr := lines.map foldLine

/-- ICSParser.export (named exportICS: `export` is reserved in Lean), with
the impure parts (generated UIDs, the DTSTAMP clock and the resolved system
timezone) injected as parameters. -/
def exportICS (gen : Nat → JStr) (now : JSDate) (ambientTZ : JStr)
    (events : List Event) (calendarName : JStr) : JStr :=
  let header :=
    [jstr "BEGIN:VCALENDAR", jstr "VERSION:2.0",
     jstr "PRODID:-//Force Calendar Core//EN",
     jstr "X-WR-CALNAME:" ++ calendarName, jstr "METHOD:PUBLISH"]
  let evLines := (events.enum.map (fun p => eventToICS (gen p.1) now ambientTZ p.2)).flatten
  joinCRLF (foldLines (header ++ evLines ++ [jstr "END:VCALENDAR"]))

end ICSParser

namespace EventSearch

/-- EventSearch.indexFields, the default search field list. -/
def indexFields : List JStr :=
  [jstr "title", jstr "description", jstr "location", jstr "category"]

/-- Dynamic field access `event[field]` for the string-valued fields.  A
non-string field (a date or an array) would make the source throw when it
calls `toLowerCase` on it; those fields are not modelled as searchable. -/
def evField (e : Event) (f : JStr) : Option JStr :=
  if f = jstr "title" then e.title
  else if f = jstr "description" then e.description
  else if f = jstr "location" then e.location
  else if f = jstr "category" then e.category
  else if f = jstr "status" then e.status
  else if f = jstr "showAs" then e.showAs
  else if f = jstr "id" then e.id
  else if f = jstr "timezone" then e.timezone
  else none

structure SearchOptions where
  fields : List JStr := indexFields
  fuzzy : Bool := true
  caseSensitive : Bool := false
  limit : Option Nat := none
  sortBy : JStr := jstr "relevance"

/-- EventSearch.tokenize: split on whitespace runs, dropping empty terms. -/
def tokenize : JStr → List JStr := go []
where
  go (acc : JStr) : JStr → List JStr
    | [] => if acc = [] then [] else [acc.reverse]
    | c :: tl =>
        if isWS c then
          if acc = [] then go [] tl else acc.reverse :: go [] tl
        else go (c :: acc) tl

/-- One cell row of the Levenshtein matrix: `left` is the cell just written
in this row, `diag :: up :: _` the aligned previous-row cells. -/
def levRowGo (bc : Char) : List Char → Nat → List Nat → List Nat
  | [], _, _ => []
  | ac :: arest, left, diag :: up :: prest =>
      let cell := if bc = ac then diag
                  else Nat.min (Nat.min (diag + 1) (left + 1)) (up + 1)
      cell :: levRowGo bc arest cell (up :: prest)
  | _ :: _, _, _ => []

/-- EventSearch.levenshteinDistance: the classic dynamic-programming matrix,
rendered row by row (row i of the source's `matrix` is the fold state after
the i-th character of `b`). -/
def levenshteinDistance (a b : JStr) : Nat :=
  if a.length = 0 then b.length
  else if b.length = 0 then a.length
  else
    let row0 := List.range (a.length + 1)
    let finalRow := b.enum.foldl
      (fun prev p => (p.1 + 1) :: levRowGo p.2 a (p.1 + 1) prev) row0
    finalRow.getLastD 0

/-- EventSearch.calculateMatchScore: per field in list order, +10 per exact
substring term hit, else the fuzzy bonus `5 - distance` when the distance is
at most 2; after scanning a field named `title`, the running total doubles. -/
def calculateMatchScore (event : Event) (queryTerms fields : List JStr)
    (fuzzy caseSensitive : Bool) : Nat :=
  fields.foldl (fun totalScore field =>
    match evField event field with
    | none => totalScore
    | some value =>
        if value = [] then totalScore
        else
          let normalizedValue := if caseSensitive then value else lowerJ value
          let afterTerms := queryTerms.foldl (fun ts term =>
            if includesJ normalizedValue term then ts + 10
            else if fuzzy then
              let distance := levenshteinDistance term normalizedValue
              if distance ≤ 2 then ts + (5 - distance) else ts
            else ts) totalScore
          if field = jstr "title" then afterTerms * 2 else afterTerms) 0

/-- Score of one query token against one normalized field value, as the
specification words it: 10 for an exact substring match, else, with fuzzy
matching on, `5 - d` when the edit distance `d` is at most 2; 0 otherwise. -/
def tokenScoreSpec (fuzzy : Bool) (normalizedValue term : JStr) : Nat :=
  if includesJ normalizedValue term then 10
  else if fuzzy then
    let d := levenshteinDistance term normalizedValue
    if d ≤ 2 then 5 - d else 0
  else 0

/-- The match score as the specification words it (its own rendering, to be
compared with `calculateMatchScore`): scan the fields in list order; for a
field with a non-empty value add the sum of the per-token scores to the
running total, and when that field is `title`, double the cumulative running
total — not just the title field's own contribution. -/
def specMatchScore (event : Event) (queryTerms fields : List JStr)
    (fuzzy caseSensitive : Bool) : Nat :=
  fields.foldl (fun running field =>
    match evField event field with
    | none => running
    | some value =>
        if value = [] then running
        else
          let normalizedValue := if caseSensitive then value else lowerJ value
          let contribution := (queryTerms.map (tokenScoreSpec fuzzy normalizedValue)).sum
          let r := running + contribution
          if field = jstr "title" then 2 * r else r) 0

/-- Stable insertion of `x` before the first element it should precede. -/
def insertLE (le : α → α → Bool) (x : α) : List α → List α
  | [] => [x]
  | y :: ys => if le x y then x :: y :: ys else y :: insertLE le x ys

/-- Stable sort (JS `Array.prototype.sort` is stable; the comparator-derived
`le` holds when the left argument may stay before the right one). -/
def insertionSortJ (le : α → α → Bool) : List α → List α
  | [] => []
  | x :: xs => insertLE le x (insertionSortJ le xs)

/-- Date key for the `date` comparator (`a.event.start - b.event.start`);
NaN arithmetic makes the JS comparator unspecified, modelled as key 0. -/
def timeNum (d : Option JSDate) : Int :=
  match d with
  | some dd => (getTime dd).getD 0
  | none => 0

/-- Code-point comparison standing in for `localeCompare`. -/
def jstrLE : JStr → JStr → Bool
  | [], _ => true
  | _ :: _, [] => false
  | a :: as, b :: bs => if a = b then jstrLE as bs else decide (a < b)

/-- EventSearch.sortResults: relevance descending by score, date ascending
by start, title ascending; any other key keeps encounter order. -/
def sortResults (results : List (Event × Nat)) (sortBy : JStr) :
    List (Event × Nat) :=
  if sortBy = jstr "relevance" then
    insertionSortJ (fun x y => y.2 ≤ x.2) results
  else if sortBy = jstr "date" then
    insertionSortJ (fun x y => timeNum x.1.start ≤ timeNum y.1.start) results
  else if sortBy = jstr "title" then
    insertionSortJ (fun x y => jstrLE (x.1.title.getD []) (y.1.title.getD [])) results
  else results

/-- EventSearch.search.  The result entries carry (event, score); the
`matches` highlight metadata the source also stores is dropped unread by the
final projection and is not modelled. -/
def search (eventStore : List Event) (query : JStr) (opts : SearchOptions) :
    List Event :=
  if query.all isWS then []
  else
    let normalizedQuery := if opts.caseSensitive then query else lowerJ query
    let queryTerms := tokenize normalizedQuery
    let results := eventStore.filterMap (fun event =>
      let score := calculateMatchScore event queryTerms opts.fields
        opts.fuzzy opts.caseSensitive
      if score > 0 then some (event, score) else none)
    let sorted := sortResults results opts.sortBy
    let limited := match opts.limit with
      | some l => if l ≠ 0 then sorted.take l else sorted
      | none => sorted
    limited.map (fun r => r.1)

structure DateRange where
  start : JSDate
  end_ : JSDate
deriving Repr, DecidableEq

structure FilterOptions where
  dateRange : Option DateRange := none
  categories : Option (List JStr) := none
  locations : Option (List JStr) := none
  attendees : Option (List JAttendee) := none
  status : Option (JStr ⊕ List JStr) := none
  allDay : Option Bool := none
  recurring : Option Bool := none
  hasReminders : Option Bool := none
  custom : Option (Event → Bool) := none

/-- The search engine's inline date-range overlap test (raw field access,
no `new Date` coercion; comparisons against a missing field are false). -/
def rangeTest (e : Event) (r : DateRange) : Bool :=
  let optGE := fun (o : Option JSDate) (d : JSDate) =>
    match o with
    | some x => dateGE x d
    | none => false
  let optLE := fun (o : Option JSDate) (d : JSDate) =>
    match o with
    | some x => dateLE x d
    | none => false
  let es := e.start
  let ee := match e.end_ with
    | some d => some d
    | none => e.start
  (optGE es r.start && optLE es r.end_) ||
    (optGE ee r.start && optLE ee r.end_) ||
    (optLE es r.start && optGE ee r.end_)

/-- JS truthiness of the event's recurrence field (`!!event.recurrence`). -/
def truthyRec : Option JRecurrence → Bool
  | none => false
  | some (.str s) => !s.isEmpty
  | some (.obj _ _ _ _ _ _) => true

/-- Attendee email for the filter path (the source would throw when an
object attendee has a falsy email; that corner is not modelled). -/
def filterEmail : JAttendee → JStr
  | .obj e _ => e
  | .raw s => s

/-- Criterion 1: date range. -/
def stepDateRange (o : Option DateRange) (evs : List Event) : List Event :=
  match o with
  | some r => evs.filter (fun e => rangeTest e r)
  | none => evs

/-- Criterion 2: categories (`categories && categories.length > 0`). -/
def stepCategories (o : Option (List JStr)) (evs : List Event) : List Event :=
  match o with
  | some cats =>
      if cats ≠ [] then
        evs.filter (fun e =>
          if truthyStr e.category then cats.contains (e.category.getD [])
          else match e.categories with
            | some arr => arr.any (fun c => cats.contains c)
            | none => false)
      else evs
  | none => evs

/-- Criterion 3: locations, case-insensitive. -/
def stepLocations (o : Option (List JStr)) (evs : List Event) : List Event :=
  match o with
  | some locs =>
      if locs ≠ [] then
        evs.filter (fun e =>
          if truthyStr e.location then
            (locs.map lowerJ).contains (lowerJ (e.location.getD []))
          else false)
      else evs
  | none => evs

/-- Criterion 4: attendees, case-insensitive email membership. -/
def stepAttendees (o : Option (List JAttendee)) (evs : List Event) : List Event :=
  match o with
  | some ats =>
      if ats ≠ [] then
        evs.filter (fun e =>
          if e.attendees = [] then false
          else e.attendees.any (fun a =>
            (ats.map (fun x => lowerJ (filterEmail x))).contains
              (lowerJ (filterEmail a))))
      else evs
  | none => evs

/-- Criterion 5: status (single value or list, normalized to a set). -/
def stepStatus (o : Option (JStr ⊕ List JStr)) (evs : List Event) : List Event :=
  match o with
  | some (.inl s) =>
      if s ≠ [] then
        evs.filter (fun e =>
          match e.status with
          | some st => st = s
          | none => false)
      else evs
  | some (.inr l) =>
      evs.filter (fun e =>
        match e.status with
        | some st => l.contains st
        | none => false)
  | none => evs

/-- Criterion 6: allDay strict equality. -/
def stepAllDay (o : Option Bool) (evs : List Event) : List Event :=
  match o with
  | some b => evs.filter (fun e => e.allDay = b)
  | none => evs

/-- Criterion 7: recurring presence test. -/
def stepRecurring (o : Option Bool) (evs : List Event) : List Event :=
  match o with
  | some b => evs.filter (fun e => truthyRec e.recurrence = b)
  | none => evs

/-- Criterion 8: reminders non-empty test. -/
def stepReminders (o : Option Bool) (evs : List Event) : List Event :=
  match o with
  | some b => evs.filter (fun e => (!e.reminders.isEmpty) = b)
  | none => evs

/-- Criterion 9: the caller-supplied predicate, applied last. -/
def stepCustom (o : Option (Event → Bool)) (evs : List Event) : List Event :=
  match o with
  | some f => evs.filter f
  | none => evs

/-- EventSearch.filter: the nine criteria, applied in the fixed source
order, each narrowing the previous result. -/
def filter (eventStore : List Event) (filters : FilterOptions) : List Event :=
  stepCustom filters.custom
    (stepReminders filters.hasReminders
      (stepRecurring filters.recurring
        (stepAllDay filters.allDay
          (stepStatus filters.status
            (stepAttendees filters.attendees
              (stepLocations filters.locations
                (stepCategories filters.categories
                  (stepDateRange filters.dateRange eventStore))))))))

end EventSearch

namespace ICSHandler

/-- Import options with their source defaults. -/
structure ImportOptions where
  merge : Bool := true
  updateExisting : Bool := false
  skipDuplicates : Bool := true
  dateRange : Option EventSearch.DateRange := none
  categories : Option (List JStr) := none

structure ImportResult where
  imported : List Event := []
  skipped : List (Event × JStr) := []
  updated : List Event := []
  errors : List (Event × JStr) := []
deriving Repr, DecidableEq

/-- The calendar-state collaborator interface of §6.  Every operation may
throw (`Except.error` carries the JS error message), as any JS call may. -/
structure Collab (σ : Type) where
  getEvent : σ → Option JStr → Except JStr (Option Event)
  getEvents : σ → Except JStr (List Event)
  addEvent : σ → Event → Except JStr σ
  updateEvent : σ → Option JStr → Event → Except JStr σ
  removeEvent : σ → Option JStr → Except JStr σ

/-- ICSHandler.isInDateRange (with the handler's `new Date` coercions: a
missing start coerces to the Invalid Date). -/
def isInDateRange (e : Event) (r : EventSearch.DateRange) : Bool :=
  let eventStart := match e.start with
    | some d => d
    | none => JSDate.invalid
  let eventEnd := match e.end_ with
    | some d => d
    | none => match e.start with
      | some d => d
      | none => JSDate.invalid
  (dateGE eventStart r.start && dateLE eventStart r.end_) ||
    (dateGE eventEnd r.start && dateLE eventEnd r.end_) ||
    (dateLE eventStart r.start && dateGE eventEnd r.end_)

/-- ICSHandler.generateNewId; the time-based suffix is injected. -/
def generateNewId (suffix : JStr) (originalId : Option JStr) : JStr :=
  originalId.getD [] ++ jstr "-copy-" ++ suffix

/-- The category inclusion filter (`categories.includes(eventData.category)`;
a missing category is never a member). -/
def catMember (cats : List JStr) : Option JStr → Bool
  | some c => cats.contains c
  | none => false

/-- One iteration of the import loop, over (results, collaborator state,
parsed array contents).  The per-event try/catch is the conversion of any
`Except.error` from a collaborator call into an `errors` entry; the third
component mirrors the `parsedEvents` array, whose record the clone branch
mutates in place (the id reassignment happens before the `addEvent` call,
so it survives even when that call throws). -/
def importStep (col : Collab σ) (suffix : JStr) (opts : ImportOptions)
    (acc : ImportResult × σ × List Event) (eventData : Event) :
    ImportResult × σ × List Event :=
  let (res, st, processed) := acc
  match opts.dateRange with
  | some r =>
      if !isInDateRange eventData r then
        ({ res with skipped := res.skipped ++ [(eventData, jstr "out_of_range")] },
         st, processed ++ [eventData])
      else importStepAfterRange col suffix opts res st processed eventData
  | none => importStepAfterRange col suffix opts res st processed eventData
where
  importStepAfterRange (col : Collab σ) (suffix : JStr) (opts : ImportOptions)
      (res : ImportResult) (st : σ) (processed : List Event) (eventData : Event) :
      ImportResult × σ × List Event :=
    match opts.categories with
    | some cats =>
        if !catMember cats eventData.category then
          ({ res with skipped := res.skipped ++ [(eventData, jstr "category_filtered")] },
           st, processed ++ [eventData])
        else importStepMain col suffix opts res st processed eventData
    | none => importStepMain col suffix opts res st processed eventData
  importStepMain (col : Collab σ) (suffix : JStr) (opts : ImportOptions)
      (res : ImportResult) (st : σ) (processed : List Event) (eventData : Event) :
      ImportResult × σ × List Event :=
    match col.getEvent st eventData.id with
    | .error m =>
        ({ res with errors := res.errors ++ [(eventData, m)] }, st,
         processed ++ [eventData])
    | .ok (some _) =>
        if opts.updateExisting then
          match col.updateEvent st eventData.id eventData with
          | .ok st' =>
              ({ res with updated := res.updated ++ [eventData] }, st',
               processed ++ [eventData])
          | .error m =>
              ({ res with errors := res.errors ++ [(eventData, m)] }, st,
               processed ++ [eventData])
        else if opts.skipDuplicates then
          ({ res with skipped := res.skipped ++ [(eventData, jstr "duplicate")] },
           st, processed ++ [eventData])
        else
          let renamed := { eventData with id := some (generateNewId suffix eventData.id) }
          match col.addEvent st renamed with
          | .ok st' =>
              ({ res with imported := res.imported ++ [renamed] }, st',
               processed ++ [renamed])
          | .error m =>
              ({ res with errors := res.errors ++ [(renamed, m)] }, st,
               processed ++ [renamed])
    | .ok none =>
        match col.addEvent st eventData with
        | .ok st' =>
            ({ res with imported := res.imported ++ [eventData] }, st',
             processed ++ [eventData])
        | .error m =>
            ({ res with errors := res.errors ++ [(eventData, m)] }, st,
             processed ++ [eventData])

/-- The per-event loop of ICSHandler.import. -/
def importLoop (col : Collab σ) (suffix : JStr) (opts : ImportOptions)
    (parsed : List Event) (st : σ) : ImportResult × σ × List Event :=
  parsed.foldl (importStep col suffix opts) ({}, st, [])

/-- Total number of records placed in the four result buckets. -/
def resultCount (r : ImportResult) : Nat :=
  r.imported.length + r.skipped.length + r.updated.length + r.errors.length

/-- The input forms of ICSHandler.import: a raw string, a file/blob whose
asynchronous read yields text or fails, or an unrecognised input type. -/
inductive ICSInput where
  | text (s : JStr) : ICSInput
  | fileRead (r : Except JStr JStr) : ICSInput
  | invalidInput : ICSInput

/-- ICSHandler.getICSString. -/
def getICSString : ICSInput → Except JStr JStr
  | .text s => .ok s
  | .fileRead r => r
  | .invalidInput => .error (jstr "Invalid input type. Expected string, File, or Blob.")

/-- The merge-false removal pass: remove every collaborator event whose id
is not among the (post-loop) parsed ids. -/
def removeMissing (col : Collab σ) (importedIds : List (Option JStr))
    (existing : List Event) (st : σ) : Except JStr σ :=
  existing.foldlM (fun s ev =>
    if importedIds.contains ev.id then pure s
    else col.removeEvent s ev.id) st

/-- ICSHandler.import (named importICS: `import` is reserved in Lean).  Any
error escaping the outer try is rewrapped with the `ICS import failed`
message; per-event errors never reach it. -/
def importICS (col : Collab σ) (suffix : JStr) (gen : Nat → JStr)
    (input : ICSInput) (opts : ImportOptions) (st : σ) :
    Except JStr (ImportResult × σ) :=
  match getICSString input with
  | .error m => .error (jstr "ICS import failed: " ++ m)
  | .ok icsString =>
      let parsed := ICSParser.parse gen icsString
      let out := importLoop col suffix opts parsed st
      if opts.merge then .ok (out.1, out.2.1)
      else
        let importedIds := out.2.2.map (fun e => e.id)
        match col.getEvents out.2.1 with
        | .error m => .error (jstr "ICS import failed: " ++ m)
        | .ok existing =>
            match removeMissing col importedIds existing out.2.1 with
            | .error m => .error (jstr "ICS import failed: " ++ m)
            | .ok st2 => .ok (out.1, st2)

/-- Modelled from the spec: the calendar-state collaborator itself lives in
the excluded `@forcecalendar/core` package, absent from the source tree; per
the §6 contract it stores records keyed by id (`getEvent(id)`,
`getEvents()`, `addEvent(record)`, `updateEvent(id, record)`,
`removeEvent(id)`) and its operations do not throw. -/
def listCollab : Collab (List Event) where
  getEvent st id := .ok (st.find? (fun e => e.id = id))
  getEvents st := .ok st
  addEvent st e := .ok (st ++ [e])
  updateEvent st id e := .ok (st.map (fun old => if old.id = id then e else old))
  removeEvent st id := .ok (st.filter (fun e => ¬(e.id = id)))

end ICSHandler

theorem replace1_expand (a : Char) (rep : JStr) (l : JStr) :
    replace1 a rep l = expandWith (fun x => if x = a then rep else [x]) l := by
  induction l with
  | nil => rfl
  | cons c tl ih => by_cases h : c = a <;> simp [replace1, expandWith, h, ih]

theorem expandWith_expandWith (f g : Char → JStr)
    (h : Char → JStr) (hfg : ∀ c, expandWith g (f c) = h c) (l : JStr) :
    expandWith g (expandWith f l) = expandWith h l := by
  have happ : ∀ u v : JStr, expandWith g (u ++ v) =
      expandWith g u ++ expandWith g v := by
    intro u v
    induction u with
    | nil => rfl
    | cons c tl ih => simp [expandWith, ih]
  induction l with
  | nil => rfl
  | cons c tl ih => simp [expandWith, happ, hfg, ih]

/-- The four escape passes amount to the per-character expansion `escChar`. -/
theorem escapeText_expand (l : JStr) : escapeText l = expandWith escChar l := by
  unfold escapeText
  by_cases hl : l = []
  · subst hl; rfl
  · simp only [hl, if_false]
    rw [replace1_expand, replace1_expand, replace1_expand, replace1_expand]
    have s1 : expandWith (fun x => if x = ';' then ['\\', ';'] else [x])
        (expandWith (fun x => if x = '\\' then ['\\', '\\'] else [x]) l) =
        expandWith (fun c => if c = '\\' then ['\\', '\\']
          else if c = ';' then ['\\', ';'] else [c]) l := by
      refine expandWith_expandWith _ _ _ ?_ l
      intro c
      by_cases h1 : c = '\\'
      · simp [h1, expandWith]
      · by_cases h2 : c = ';' <;> simp [h1, h2, expandWith]
    rw [s1]
    have s2 : expandWith (fun x => if x = ',' then ['\\', ','] else [x])
        (expandWith (fun c => if c = '\\' then ['\\', '\\']
          else if c = ';' then ['\\', ';'] else [c]) l) =
        expandWith escChar3 l := by
      refine expandWith_expandWith _ _ _ ?_ l
      intro c
      by_cases h1 : c = '\\'
      · simp [h1, expandWith, escChar3]
      · by_cases h2 : c = ';'
        · simp [h1, h2, expandWith, escChar3]
        · by_cases h3 : c = ',' <;> simp [h1, h2, h3, expandWith, escChar3]
    rw [s2]
    refine expandWith_expandWith _ _ _ ?_ l
    intro c
    by_cases h1 : c = '\\'
    · simp [h1, escChar3, expandWith, escChar]
    · by_cases h2 : c = ';'
      · simp [h1, h2, escChar3, expandWith, escChar]
      · by_cases h3 : c = ','
        · simp [h1, h2, h3, escChar3, expandWith, escChar]
        · by_cases h4 : c = '\n' <;>
            simp [h1, h2, h3, h4, escChar3, expandWith, escChar]

theorem replace2_cons_skip (a b : Char) (rep : JStr) (c : Char) (l : JStr)
    (h : ¬(c = a ∧ l.head? = some b)) :
    replace2 a b rep (c :: l) = c :: replace2 a b rep l := by
  cases l with
  | nil => rfl
  | cons d tl =>
      have : ¬(c = a ∧ d = b) := by simpa using h
      simp [replace2, this]

theorem replace2_cons_hit (a b : Char) (rep : JStr) (l : JStr) :
    replace2 a b rep (a :: b :: l) = rep ++ replace2 a b rep l := by
  simp [replace2]

theorem noBN_tail (c : Char) (l : JStr) (h : noBN (c :: l)) : noBN l := by
  cases l with
  | nil => trivial
  | cons d tl =>
      unfold noBN at h ⊢
      rw [show hasBN (c :: d :: tl)
            = ((decide (c = '\\') && decide (d = 'n')) || hasBN (d :: tl)) from rfl] at h
      exact (Bool.or_eq_false_iff.mp h).2

theorem noBN_bs_head (l : JStr) (h : noBN ('\\' :: l)) : l.head? ≠ some 'n' := by
  cases l with
  | nil => simp
  | cons d tl =>
      intro hd
      simp at hd
      subst hd
      unfold noBN hasBN at h
      simp at h

theorem escChar_other (c : Char) (h1 : c ≠ '\\') (h2 : c ≠ ';') (h3 : c ≠ ',')
    (h4 : c ≠ '\n') : escChar c = [c] := by
  simp [escChar, h1, h2, h3, h4]

theorem escChar3_other (c : Char) (h1 : c ≠ '\\') (h2 : c ≠ ';') (h3 : c ≠ ',') :
    escChar3 c = [c] := by
  simp [escChar3, h1, h2, h3]

theorem escChar4_other (c : Char) (h1 : c ≠ '\\') (h2 : c ≠ ';') :
    escChar4 c = [c] := by
  simp [escChar4, h1, h2]

theorem escChar5_other (c : Char) (h1 : c ≠ '\\') : escChar5 c = [c] := by
  simp [escChar5, h1]

theorem escChar_head_ne_n (l : JStr) (h : l.head? ≠ some 'n') :
    (expandWith escChar l).head? ≠ some 'n' := by
  cases l with
  | nil => simp [expandWith]
  | cons d tl =>
      have hd : d ≠ 'n' := by simpa using h
      simp only [expandWith, escChar]
      split_ifs <;> simp_all

theorem escChar3_head_ne_comma (l : JStr) :
    (expandWith escChar3 l).head? ≠ some ',' := by
  cases l with
  | nil => simp [expandWith]
  | cons d tl =>
      simp only [expandWith, escChar3]
      split_ifs <;> simp_all

theorem escChar4_head_ne_semi (l : JStr) :
    (expandWith escChar4 l).head? ≠ some ';' := by
  cases l with
  | nil => simp [expandWith]
  | cons d tl =>
      simp only [expandWith, escChar4]
      split_ifs <;> simp_all

theorem unescape_pass1 (l : JStr) (h : noBN l) :
    replace2 '\\' 'n' ['\n'] (expandWith escChar l) = expandWith escChar3 l := by
  induction l with
  | nil => rfl
  | cons c rest ih =>
      have hrest := noBN_tail c rest h
      by_cases h1 : c = '\\'
      · subst h1
        have hR := escChar_head_ne_n rest (noBN_bs_head rest h)
        show replace2 '\\' 'n' ['\n'] ('\\' :: '\\' :: expandWith escChar rest)
            = '\\' :: '\\' :: expandWith escChar3 rest
        rw [replace2_cons_skip '\\' 'n' ['\n'] '\\' ('\\' :: expandWith escChar rest)
              (by simp),
            replace2_cons_skip '\\' 'n' ['\n'] '\\' (expandWith escChar rest)
              (by simpa using hR),
            ih hrest]
      · by_cases h2 : c = ';'
        · subst h2
          show replace2 '\\' 'n' ['\n'] ('\\' :: ';' :: expandWith escChar rest)
              = '\\' :: ';' :: expandWith escChar3 rest
          rw [replace2_cons_skip '\\' 'n' ['\n'] '\\' (';' :: expandWith escChar rest)
                (by simp),
              replace2_cons_skip '\\' 'n' ['\n'] ';' (expandWith escChar rest)
                (by simp),
              ih hrest]
        · by_cases h3 : c = ','
          · subst h3
            show replace2 '\\' 'n' ['\n'] ('\\' :: ',' :: expandWith escChar rest)
                = '\\' :: ',' :: expandWith escChar3 rest
            rw [replace2_cons_skip '\\' 'n' ['\n'] '\\' (',' :: expandWith escChar rest)
                  (by simp),
                replace2_cons_skip '\\' 'n' ['\n'] ',' (expandWith escChar rest)
                  (by simp),
                ih hrest]
          · by_cases h4 : c = '\n'
            · subst h4
              show replace2 '\\' 'n' ['\n'] ('\\' :: 'n' :: expandWith escChar rest)
                  = '\n' :: expandWith escChar3 rest
              rw [replace2_cons_hit, ih hrest]
              rfl
            · show replace2 '\\' 'n' ['\n'] (escChar c ++ expandWith escChar rest)
                  = escChar3 c ++ expandWith escChar3 rest
              rw [escChar_other c h1 h2 h3 h4, escChar3_other c h1 h2 h3,
                  List.singleton_append, List.singleton_append,
                  replace2_cons_skip '\\' 'n' ['\n'] c (expandWith escChar rest)
                    (by simp [h1]),
                  ih hrest]

theorem unescape_pass2 (l : JStr) :
    replace2 '\\' ',' [','] (expandWith escChar3 l) = expandWith escChar4 l := by
  induction l with
  | nil => rfl
  | cons c rest ih =>
      by_cases h1 : c = '\\'
      · subst h1
        have hR := escChar3_head_ne_comma rest
        show replace2 '\\' ',' [','] ('\\' :: '\\' :: expandWith escChar3 rest)
            = '\\' :: '\\' :: expandWith escChar4 rest
        rw [replace2_cons_skip '\\' ',' [','] '\\' ('\\' :: expandWith escChar3 rest)
              (by simp),
            replace2_cons_skip '\\' ',' [','] '\\' (expandWith escChar3 rest)
              (by simpa using hR),
            ih]
      · by_cases h2 : c = ';'
        · subst h2
          show replace2 '\\' ',' [','] ('\\' :: ';' :: expandWith escChar3 rest)
              = '\\' :: ';' :: expandWith escChar4 rest
          rw [replace2_cons_skip '\\' ',' [','] '\\' (';' :: expandWith escChar3 rest)
                (by simp),
              replace2_cons_skip '\\' ',' [','] ';' (expandWith escChar3 rest)
                (by simp),
              ih]
        · by_cases h3 : c = ','
          · subst h3
            show replace2 '\\' ',' [','] ('\\' :: ',' :: expandWith escChar3 rest)
                = ',' :: expandWith escChar4 rest
            rw [replace2_cons_hit, ih]
            rfl
          · show replace2 '\\' ',' [','] (escChar3 c ++ expandWith escChar3 rest)
                = escChar4 c ++ expandWith escChar4 rest
            rw [escChar3_other c h1 h2 h3, escChar4_other c h1 h2,
                List.singleton_append, List.singleton_append,
                replace2_cons_skip '\\' ',' [','] c (expandWith escChar3 rest)
                  (by simp [h1]),
                ih]

theorem unescape_pass3 (l : JStr) :
    replace2 '\\' ';' [';'] (expandWith escChar4 l) = expandWith escChar5 l := by
  induction l with
  | nil => rfl
  | cons c rest ih =>
      by_cases h1 : c = '\\'
      · subst h1
        have hR := escChar4_head_ne_semi rest
        show replace2 '\\' ';' [';'] ('\\' :: '\\' :: expandWith escChar4 rest)
            = '\\' :: '\\' :: expandWith escChar5 rest
        rw [replace2_cons_skip '\\' ';' [';'] '\\' ('\\' :: expandWith escChar4 rest)
              (by simp),
            replace2_cons_skip '\\' ';' [';'] '\\' (expandWith escChar4 rest)
              (by simpa using hR),
            ih]
      · by_cases h2 : c = ';'
        · subst h2
          show replace2 '\\' ';' [';'] ('\\' :: ';' :: expandWith escChar4 rest)
              = ';' :: expandWith escChar5 rest
          rw [replace2_cons_hit, ih]
          rfl
        · show replace2 '\\' ';' [';'] (escChar4 c ++ expandWith escChar4 rest)
              = escChar5 c ++ expandWith escChar5 rest
          rw [escChar4_other c h1 h2, escChar5_other c h1,
              List.singleton_append, List.singleton_append,
              replace2_cons_skip '\\' ';' [';'] c (expandWith escChar4 rest)
                (by simp [h1]),
              ih]

theorem unescape_pass4 (l : JStr) :
    replace2 '\\' '\\' ['\\'] (expandWith escChar5 l) = l := by
  induction l with
  | nil => rfl
  | cons c rest ih =>
      by_cases h1 : c = '\\'
      · subst h1
        show replace2 '\\' '\\' ['\\'] ('\\' :: '\\' :: expandWith escChar5 rest)
            = '\\' :: rest
        rw [replace2_cons_hit, ih]
        rfl
      · show replace2 '\\' '\\' ['\\'] (escChar5 c ++ expandWith escChar5 rest)
            = c :: rest
        rw [escChar5_other c h1, List.singleton_append,
            replace2_cons_skip '\\' '\\' ['\\'] c (expandWith escChar5 rest)
              (by simp [h1]),
            ih]

/-- Inverse law for the escaping pair, on every string free of the
backslash-then-letter-n hazard. -/
theorem unescape_escape (l : JStr) (h : noBN l) :
    unescapeText (escapeText l) = l := by
  rw [escapeText_expand]
  by_cases hl : l = []
  · subst hl; rfl
  · have hne : expandWith escChar l ≠ [] := by
      cases l with
      | nil => exact absurd rfl hl
      | cons c tl =>
          simp only [expandWith, escChar]
          split_ifs <;> simp
    unfold unescapeText
    rw [if_neg hne, unescape_pass1 l h, unescape_pass2 l, unescape_pass3 l,
      unescape_pass4 l]

/-!
Claim theorems.
-/

/-- Claim C5 counterexample: the title made of a comma, a semicolon, a
backslash, the letter n and a newline character contains all four required
characters, yet `unescapeText (escapeText t)` differs from `t` (the
backslash-then-n pair is misread by the inbound `\n` pass). -/
theorem c5_counterexample :
    (',' ∈ ([',', ';', '\\', 'n', '\n'] : JStr) ∧
     ';' ∈ ([',', ';', '\\', 'n', '\n'] : JStr) ∧
     '\\' ∈ ([',', ';', '\\', 'n', '\n'] : JStr) ∧
     '\n' ∈ ([',', ';', '\\', 'n', '\n'] : JStr)) ∧
    unescapeText (escapeText [',', ';', '\\', 'n', '\n']) ≠
      [',', ';', '\\', 'n', '\n'] := by
  decide

/-- Claim C5 (amended): for every title containing a comma, a semicolon, a
backslash and an embedded newline, in which no backslash is immediately
followed by the letter n, `unescapeText (escapeText title) = title`. -/
theorem c5_escape_inverse (title : JStr) (hc : ',' ∈ title) (hs : ';' ∈ title)
    (hb : '\\' ∈ title) (hn : '\n' ∈ title) (hhaz : noBN title) :
    unescapeText (escapeText title) = title :=
  unescape_escape title hhaz

/-- Witness for C5 on a concrete title. -/
theorem c5_escape_inverse_witness :
    (',' ∈ ([',', ';', '\\', '\n'] : JStr) ∧
     ';' ∈ ([',', ';', '\\', '\n'] : JStr) ∧
     '\\' ∈ ([',', ';', '\\', '\n'] : JStr) ∧
     '\n' ∈ ([',', ';', '\\', '\n'] : JStr) ∧ noBN [',', ';', '\\', '\n']) ∧
    unescapeText (escapeText [',', ';', '\\', '\n']) = [',', ';', '\\', '\n'] :=
  ⟨by decide,
   c5_escape_inverse [',', ';', '\\', '\n'] (by decide) (by decide) (by decide)
     (by decide) (by decide)⟩

theorem foldl_congr_step {α β : Type} (f g : β → α → β) (l : List α)
    (h : ∀ b a, f b a = g b a) : ∀ b0 : β, l.foldl f b0 = l.foldl g b0 := by
  induction l with
  | nil => intro b0; rfl
  | cons a tl ih =>
      intro b0
      simp only [List.foldl_cons, h b0 a]
      exact ih (g b0 a)

theorem score_inner (queryTerms : List JStr) (fuzzy : Bool) (nv : JStr) :
    ∀ t0 : Nat,
      queryTerms.foldl (fun ts term =>
        if includesJ nv term then ts + 10
        else if fuzzy then
          let distance := EventSearch.levenshteinDistance term nv
          if distance ≤ 2 then ts + (5 - distance) else ts
        else ts) t0
      = t0 + (queryTerms.map (EventSearch.tokenScoreSpec fuzzy nv)).sum := by
  induction queryTerms with
  | nil => intro t0; simp
  | cons term rest ih =>
      intro t0
      simp only [List.foldl_cons, List.map_cons, List.sum_cons]
      rw [ih]
      have hts : EventSearch.tokenScoreSpec fuzzy nv term =
          (if includesJ nv term then 10
           else if fuzzy then
             (if EventSearch.levenshteinDistance term nv ≤ 2 then
               5 - EventSearch.levenshteinDistance term nv else 0)
           else 0) := rfl
      rw [hts]
      by_cases h1 : includesJ nv term
      · simp only [h1, if_true]
        omega
      · simp only [h1, if_false, Bool.false_eq_true]
        by_cases h2 : fuzzy
        · simp only [h2, if_true]
          by_cases h3 : EventSearch.levenshteinDistance term nv ≤ 2 <;>
            simp only [h3, if_true, if_false] <;> omega
        · simp only [h2, if_false, Bool.false_eq_true]
          omega

/-- Claim C3: the search score scans fields in list order, adds 10 per exact
substring token hit and the fuzzy bonus `5 - d` (distance at most 2) when no
substring hit occurred, and whenever the field just scanned is `title` the
cumulative running total — previously scanned fields' contributions included
— is doubled, exactly as the spec-worded `specMatchScore` renders it. -/
theorem c3_title_boost_cumulative (event : Event) (queryTerms fields : List JStr)
    (fuzzy caseSensitive : Bool) :
    EventSearch.calculateMatchScore event queryTerms fields fuzzy caseSensitive =
      EventSearch.specMatchScore event queryTerms fields fuzzy caseSensitive := by
  unfold EventSearch.calculateMatchScore EventSearch.specMatchScore
  refine foldl_congr_step _ _ fields ?_ 0
  intro acc field
  cases hv : EventSearch.evField event field with
  | none => simp [hv]
  | some value =>
      by_cases hval : value = []
      · simp [hv, hval]
      · simp only [hv, hval, if_neg hval]
        rw [score_inner queryTerms fuzzy (if caseSensitive then value else lowerJ value) acc]
        by_cases ht : field = jstr "title" <;> simp [ht] <;> omega

/-- Claim C8: the `limit` option truncates the same ranking after sorting,
so for any query, field set and options the limited search result is an
initial segment of the unlimited one. -/
theorem c8_limit_prefix (events : List Event) (query : JStr)
    (opts : EventSearch.SearchOptions) (l : Nat) :
    EventSearch.search events query { opts with limit := some l } <+:
      EventSearch.search events query { opts with limit := none } := by
  unfold EventSearch.search
  by_cases hq : query.all isWS
  · simp [hq]
  · simp only [hq, if_false]
    by_cases hl : l = 0
    · subst hl
      simp only [ne_eq, not_true_eq_false, if_false]
      exact List.prefix_rfl
    · simp only [ne_eq, hl, not_false_eq_true, if_true]
      rw [List.map_take]
      exact List.take_prefix _ _

theorem idxOf_eq_none (c : Char) (l : JStr) (h : c ∉ l) : idxOf c l = none := by
  induction l with
  | nil => rfl
  | cons x tl ih =>
      have hx : x ≠ c := by
        intro hxc; exact h (by simp [hxc])
      have htl : c ∉ tl := fun hm => h (List.mem_cons_of_mem x hm)
      simp [idxOf, hx, ih htl]

theorem sepSplit_none_of_no_colon (l : JStr) (h : ':' ∉ l) :
    ICSParser.sepSplit l = none := by
  unfold ICSParser.sepSplit
  rw [idxOf_eq_none ':' l h]
  cases idxOf ';' l <;> rfl

theorem stepLine_events_grow (gen : Nat → JStr) (st : ICSParser.PState)
    (l : JStr) :
    ∃ n, (ICSParser.stepLine gen st l).events = st.events ++ n := by
  unfold ICSParser.stepLine
  repeat' split
  all_goals first
    | exact ⟨_, rfl⟩
    | exact ⟨[], by simp⟩

theorem stepLine_events_const (gen : Nat → JStr) (st : ICSParser.PState)
    (l : JStr) (h : ¬ ICSParser.isEndVEventLine l) :
    (ICSParser.stepLine gen st l).events = st.events := by
  unfold ICSParser.isEndVEventLine at h
  unfold ICSParser.stepLine
  split
  · rfl
  · split
    · rfl
    · rename_i property value heq
      rw [heq] at h
      split
      · split
        · rfl
        · split <;> rfl
      · split
        · split
          · rename_i hEnd hVev
            exact absurd (by simp [hEnd, hVev]) h
          · split <;> rfl
        · split <;> rfl

theorem parseLines_append (gen : Nat → JStr) (l1 l2 : List JStr)
    (st : ICSParser.PState) :
    ICSParser.parseLines gen (l1 ++ l2) st =
      ICSParser.parseLines gen l2 (ICSParser.parseLines gen l1 st) := by
  unfold ICSParser.parseLines
  exact List.foldl_append _ _ l1 l2

theorem parseLines_events_const (gen : Nat → JStr) (lines : List JStr)
    (h : ∀ l ∈ lines, ¬ ICSParser.isEndVEventLine l) :
    ∀ st, (ICSParser.parseLines gen lines st).events = st.events := by
  induction lines with
  | nil => intro st; rfl
  | cons l tl ih =>
      intro st
      have h1 : ¬ ICSParser.isEndVEventLine l := h l (by simp)
      have h2 : ∀ x ∈ tl, ¬ ICSParser.isEndVEventLine x :=
        fun x hx => h x (List.mem_cons_of_mem l hx)
      show (ICSParser.parseLines gen tl (ICSParser.stepLine gen st l)).events = st.events
      rw [ih h2, stepLine_events_const gen st l h1]

theorem parseLines_events_grow (gen : Nat → JStr) (lines : List JStr) :
    ∀ st, ∃ n, (ICSParser.parseLines gen lines st).events = st.events ++ n := by
  induction lines with
  | nil => intro st; exact ⟨[], by simp [ICSParser.parseLines]⟩
  | cons l tl ih =>
      intro st
      obtain ⟨n1, hn1⟩ := stepLine_events_grow gen st l
      obtain ⟨n2, hn2⟩ := ih (ICSParser.stepLine gen st l)
      refine ⟨n1 ++ n2, ?_⟩
      show (ICSParser.parseLines gen tl (ICSParser.stepLine gen st l)).events
        = st.events ++ (n1 ++ n2)
      rw [hn2, hn1, List.append_assoc]

/-- Claim C9: parse is total and lossy only in the specified ways — it is
the fold of the line scanner over the unfolded lines (a); a line with no
colon separator is skipped without effect (b); a non-structural property
line outside a VEVENT or inside a VALARM contributes nothing (c); events
are only appended, in document order (d); and a `BEGIN:VEVENT` with no
matching `END:VEVENT` before end of input contributes no record (e). -/
theorem c9_parse_total_lossy (gen : Nat → JStr) :
    (∀ s : JStr, ICSParser.parse gen s =
        (ICSParser.parseLines gen (ICSParser.unfoldLines s) ICSParser.initPState).events) ∧
    (∀ (st : ICSParser.PState) (line : JStr), ':' ∉ line →
        ICSParser.stepLine gen st line = st) ∧
    (∀ (st : ICSParser.PState) (line : JStr),
        (st.inEvent = false ∨ st.inAlarm = true) →
        ICSParser.lineProp line ≠ some (jstr "BEGIN") →
        ICSParser.lineProp line ≠ some (jstr "END") →
        ICSParser.stepLine gen st line = st) ∧
    (∀ (st : ICSParser.PState) (lines : List JStr),
        ∃ n, (ICSParser.parseLines gen lines st).events = st.events ++ n) ∧
    (∀ (pre tail : List JStr), (∀ l ∈ tail, ¬ ICSParser.isEndVEventLine l) →
        (ICSParser.parseLines gen (pre ++ jstr "BEGIN:VEVENT" :: tail)
            ICSParser.initPState).events
          = (ICSParser.parseLines gen pre ICSParser.initPState).events) := by
  refine ⟨fun s => rfl, ?_, ?_, fun st lines => parseLines_events_grow gen lines st, ?_⟩
  · intro st line h
    unfold ICSParser.stepLine
    rw [sepSplit_none_of_no_colon line h]
    split <;> rfl
  · intro st line hflag hBegin hEnd
    unfold ICSParser.lineProp at hBegin hEnd
    unfold ICSParser.stepLine
    split
    · rfl
    · split
      · rfl
      · rename_i property value heq
        rw [heq] at hBegin hEnd
        have hpB : ¬ property = jstr "BEGIN" := by
          intro hp; exact hBegin (by simp [hp])
        have hpE : ¬ property = jstr "END" := by
          intro hp; exact hEnd (by simp [hp])
        simp only [hpB, if_false, hpE]
        split
        · rename_i hcond
          rcases hflag with hf | hf
          · rw [hf] at hcond; simp at hcond
          · rw [hf] at hcond; simp at hcond
        · rfl
  · intro pre tail htail
    rw [parseLines_append]
    have hstep : ∀ st : ICSParser.PState,
        (ICSParser.parseLines gen (jstr "BEGIN:VEVENT" :: tail) st).events
          = st.events := by
      intro st
      show (ICSParser.parseLines gen tail
        (ICSParser.stepLine gen st (jstr "BEGIN:VEVENT"))).events = st.events
      rw [parseLines_events_const gen tail htail]
      rfl
    exact hstep _

/-- Witness for C9 at a concrete document: the event opened by the second
BEGIN with no END contributes nothing. -/
theorem c9_witness :
    (ICSParser.parseLines (fun _ => jstr "gen")
        ([jstr "BEGIN:VCALENDAR"] ++ jstr "BEGIN:VEVENT" :: [jstr "SUMMARY:x"])
        ICSParser.initPState).events
      = (ICSParser.parseLines (fun _ => jstr "gen") [jstr "BEGIN:VCALENDAR"]
          ICSParser.initPState).events :=
  (c9_parse_total_lossy (fun _ => jstr "gen")).2.2.2.2
    [jstr "BEGIN:VCALENDAR"] [jstr "SUMMARY:x"] (by decide)

/-- Claim C1 (code bug): exporting an all-day event emits DTSTART and DTEND
in the VALUE=DATE parameter form, and reparsing the output recovers the same
calendar dates, but `allDay` comes back false — `parse` cuts the property at
the first separator before calling `parseProperty`, so the `VALUE=DATE`
check there (and in `parseDate`) never sees the parameter string; the date
only survives through the 8-digit-length fallback. -/
theorem c1_allday_roundtrip_bug :
    jstr "DTSTART;VALUE=DATE:20240101" ∈
      ICSParser.eventToICS (jstr "gen") (JSDate.mk 2024 0 15 12 0 0) (jstr "UTC")
        { id := some (jstr "1"), title := some (jstr "Birthday"),
          start := some (JSDate.mk 2024 0 1 0 0 0),
          end_ := some (JSDate.mk 2024 0 2 0 0 0), allDay := true } ∧
    jstr "DTEND;VALUE=DATE:20240102" ∈
      ICSParser.eventToICS (jstr "gen") (JSDate.mk 2024 0 15 12 0 0) (jstr "UTC")
        { id := some (jstr "1"), title := some (jstr "Birthday"),
          start := some (JSDate.mk 2024 0 1 0 0 0),
          end_ := some (JSDate.mk 2024 0 2 0 0 0), allDay := true } ∧
    ICSParser.parse (fun _ => jstr "gen")
      (ICSParser.exportICS (fun _ => jstr "gen") (JSDate.mk 2024 0 15 12 0 0)
        (jstr "UTC")
        [{ id := some (jstr "1"), title := some (jstr "Birthday"),
           start := some (JSDate.mk 2024 0 1 0 0 0),
           end_ := some (JSDate.mk 2024 0 2 0 0 0), allDay := true }]
        (jstr "Cal")) =
      [{ id := some (jstr "1"), title := some (jstr "Birthday"),
         description := some [], location := some [], category := some [],
         start := some (JSDate.mk 2024 0 1 0 0 0),
         end_ := some (JSDate.mk 2024 0 2 0 0 0), allDay := false,
         status := some (jstr "confirmed"), showAs := some (jstr "busy"),
         attendees := [], reminders := [] }] := by
  refine ⟨by decide, by decide, ?_⟩
  decide

theorem importICS_text_merge {σ : Type} (col : ICSHandler.Collab σ)
    (suffix : JStr) (gen : Nat → JStr) (s : JStr)
    (opts : ICSHandler.ImportOptions) (st : σ) (hm : opts.merge = true) :
    ICSHandler.importICS col suffix gen (.text s) opts st =
      .ok ((ICSHandler.importLoop col suffix opts (ICSParser.parse gen s) st).1,
           (ICSHandler.importLoop col suffix opts (ICSParser.parse gen s) st).2.1) := by
  unfold ICSHandler.importICS ICSHandler.getICSString
  simp [hm]

theorem importStep_default_existing {σ : Type} (col : ICSHandler.Collab σ)
    (suffix : JStr) (opts : ICSHandler.ImportOptions)
    (res : ICSHandler.ImportResult) (st : σ) (processed : List Event) (e : Event)
    (hdr : opts.dateRange = none) (hcat : opts.categories = none)
    (hup : opts.updateExisting = false) (hskip : opts.skipDuplicates = true)
    (ex : Event) (hget : col.getEvent st e.id = .ok (some ex)) :
    ICSHandler.importStep col suffix opts (res, st, processed) e =
      ({ res with skipped := res.skipped ++ [(e, jstr "duplicate")] }, st,
        processed ++ [e]) := by
  unfold ICSHandler.importStep
  rw [hdr]
  unfold ICSHandler.importStep.importStepAfterRange
  rw [hcat]
  unfold ICSHandler.importStep.importStepMain
  dsimp only
  rw [hget]
  dsimp only
  simp [hup, hskip]

theorem importStep_default_new {σ : Type} (col : ICSHandler.Collab σ)
    (suffix : JStr) (opts : ICSHandler.ImportOptions)
    (res : ICSHandler.ImportResult) (st : σ) (processed : List Event) (e : Event)
    (hdr : opts.dateRange = none) (hcat : opts.categories = none)
    (hget : col.getEvent st e.id = .ok none) (st' : σ)
    (hadd : col.addEvent st e = .ok st') :
    ICSHandler.importStep col suffix opts (res, st, processed) e =
      ({ res with imported := res.imported ++ [e] }, st', processed ++ [e]) := by
  unfold ICSHandler.importStep
  rw [hdr]
  unfold ICSHandler.importStep.importStepAfterRange
  rw [hcat]
  unfold ICSHandler.importStep.importStepMain
  dsimp only
  rw [hget]
  dsimp only
  rw [hadd]

/-- Claim C7: importing the same one-event document twice with the default
options (merge, no updateExisting, skipDuplicates) makes the second call
return skipped = [(event, "duplicate")] and nothing else, and leaves the
collaborator state exactly as after the first call. -/
theorem c7_second_import_skips_duplicate (gen1 gen2 : Nat → JStr) (suffix s : JStr)
    (e : Event) (st : List Event) (opts : ICSHandler.ImportOptions)
    (hm : opts.merge = true) (hup : opts.updateExisting = false)
    (hskip : opts.skipDuplicates = true) (hdr : opts.dateRange = none)
    (hcat : opts.categories = none)
    (h1 : ICSParser.parse gen1 s = [e]) (h2 : ICSParser.parse gen2 s = [e]) :
    ∃ r1 st1,
      ICSHandler.importICS ICSHandler.listCollab suffix gen1 (.text s) opts st
          = .ok (r1, st1) ∧
      ICSHandler.importICS ICSHandler.listCollab suffix gen2 (.text s) opts st1
          = .ok ({ imported := [], skipped := [(e, jstr "duplicate")],
                   updated := [], errors := [] }, st1) := by
  have hloop1 := importICS_text_merge ICSHandler.listCollab suffix gen1 s opts st hm
  rw [h1] at hloop1
  -- after the first call the collaborator holds an event with e's id
  have hsecond : ∀ st1 : List Event,
      st1.find? (fun x => x.id = e.id) ≠ none →
      ICSHandler.importICS ICSHandler.listCollab suffix gen2 (.text s) opts st1
        = .ok ({ imported := [], skipped := [(e, jstr "duplicate")],
                 updated := [], errors := [] }, st1) := by
    intro st1 hfind
    have hloop2 := importICS_text_merge ICSHandler.listCollab suffix gen2 s opts st1 hm
    rw [h2] at hloop2
    cases hf : st1.find? (fun x => x.id = e.id) with
    | none => exact absurd hf hfind
    | some ex =>
        have hget : ICSHandler.listCollab.getEvent st1 e.id = .ok (some ex) := by
          simp [ICSHandler.listCollab, hf]
        have hstep := importStep_default_existing ICSHandler.listCollab suffix opts
          {} st1 [] e hdr hcat hup hskip ex hget
        rw [hloop2]
        unfold ICSHandler.importLoop
        simp only [List.foldl_cons, List.foldl_nil, hstep, List.nil_append]
  cases hf0 : st.find? (fun x => x.id = e.id) with
  | some ex =>
      have hget : ICSHandler.listCollab.getEvent st e.id = .ok (some ex) := by
        simp [ICSHandler.listCollab, hf0]
      have hstep := importStep_default_existing ICSHandler.listCollab suffix opts
        {} st [] e hdr hcat hup hskip ex hget
      have hcall1 : ICSHandler.importICS ICSHandler.listCollab suffix gen1
          (.text s) opts st
          = .ok ({ imported := [], skipped := [(e, jstr "duplicate")],
                   updated := [], errors := [] }, st) := by
        rw [hloop1]
        unfold ICSHandler.importLoop
        simp only [List.foldl_cons, List.foldl_nil, hstep, List.nil_append]
      exact ⟨_, st, hcall1, hsecond st (by rw [hf0]; simp)⟩
  | none =>
      have hget : ICSHandler.listCollab.getEvent st e.id = .ok none := by
        simp [ICSHandler.listCollab, hf0]
      have hadd : ICSHandler.listCollab.addEvent st e = .ok (st ++ [e]) := rfl
      have hstep := importStep_default_new ICSHandler.listCollab suffix opts
        {} st [] e hdr hcat hget (st ++ [e]) hadd
      have hfind1 : (st ++ [e]).find? (fun x => x.id = e.id) ≠ none := by
        rw [List.find?_append, hf0]
        simp
      have hcall1 : ICSHandler.importICS ICSHandler.listCollab suffix gen1
          (.text s) opts st
          = .ok ({ imported := [e], skipped := [],
                   updated := [], errors := [] }, st ++ [e]) := by
        rw [hloop1]
        unfold ICSHandler.importLoop
        simp only [List.foldl_cons, List.foldl_nil, hstep, List.nil_append]
      exact ⟨_, st ++ [e], hcall1, hsecond (st ++ [e]) hfind1⟩

/-- Witness for C7: a concrete UID-carrying document imported twice into an
initially empty collaborator. -/
theorem c7_witness :
    ∃ r1 st1,
      ICSHandler.importICS ICSHandler.listCollab (jstr "T") (fun _ => jstr "gen")
          (.text (jstr "BEGIN:VEVENT\r\nUID:1\r\nSUMMARY:Standup\r\nEND:VEVENT"))
          {} [] = .ok (r1, st1) ∧
      ICSHandler.importICS ICSHandler.listCollab (jstr "T") (fun _ => jstr "gen")
          (.text (jstr "BEGIN:VEVENT\r\nUID:1\r\nSUMMARY:Standup\r\nEND:VEVENT"))
          {} st1
        = .ok ({ imported := [],
                 skipped := [({ ICSParser.createEmptyEvent with
                                id := some (jstr "1"),
                                title := some (jstr "Standup") }, jstr "duplicate")],
                 updated := [], errors := [] }, st1) :=
  c7_second_import_skips_duplicate (fun _ => jstr "gen") (fun _ => jstr "gen")
    (jstr "T")
    (jstr "BEGIN:VEVENT\r\nUID:1\r\nSUMMARY:Standup\r\nEND:VEVENT")
    ({ ICSParser.createEmptyEvent with
       id := some (jstr "1"), title := some (jstr "Standup") })
    [] {} rfl rfl rfl rfl rfl (by decide) (by decide)

theorem removeMissing_listCollab (ids : List (Option JStr)) :
    ∀ (snap s : List Event),
      ICSHandler.removeMissing ICSHandler.listCollab ids snap s =
        .ok (s.filter (fun ev =>
          snap.all (fun v => ids.contains v.id || !(decide (v.id = ev.id))))) := by
  intro snap
  induction snap with
  | nil =>
      intro s
      simp only [ICSHandler.removeMissing, List.foldlM, List.all_nil,
        Bool.or_true, List.filter_true]
      rfl
  | cons v tl ih =>
      intro s
      unfold ICSHandler.removeMissing at ih ⊢
      rw [List.foldlM_cons]
      by_cases hc : ids.contains v.id
      · simp only [hc, if_true]
        show List.foldlM _ s tl = _
        rw [ih s]
        congr 1
        apply List.filter_congr
        intro ev _
        rw [List.all_cons, hc, Bool.true_or, Bool.true_and]
      · simp only [hc, if_false]
        show Except.bind (ICSHandler.listCollab.removeEvent s v.id) _ = _
        have hrem : ICSHandler.listCollab.removeEvent s v.id =
            .ok (s.filter (fun e => ¬(e.id = v.id))) := rfl
        rw [hrem]
        show List.foldlM _ (s.filter (fun e => ¬(e.id = v.id))) tl = _
        rw [ih]
        congr 1
        rw [List.filter_filter]
        apply List.filter_congr
        intro ev _
        have hc' : ids.contains v.id = false := by simpa using hc
        rw [List.all_cons, hc', Bool.false_or]
        by_cases hveq : v.id = ev.id
        · have h1 : ev.id = v.id := hveq.symm
          simp [h1]
        · have hveq' : ¬(ev.id = v.id) := fun hx => hveq hx.symm
          simp [hveq, hveq']

/-- Claim C6: with merge = false, after the per-event loop every
collaborator-held event whose id is absent from the (post-loop) parsed ids
is removed and every one whose id is present is retained: the final state is
the post-loop state filtered by membership of the event id in the ids of the
processed parsed array. -/
theorem c6_merge_false_removal (suffix : JStr) (gen : Nat → JStr) (s : JStr)
    (opts : ICSHandler.ImportOptions) (st : List Event)
    (hm : opts.merge = false) :
    ICSHandler.importICS ICSHandler.listCollab suffix gen (.text s) opts st =
      .ok ((ICSHandler.importLoop ICSHandler.listCollab suffix opts
              (ICSParser.parse gen s) st).1,
           ((ICSHandler.importLoop ICSHandler.listCollab suffix opts
              (ICSParser.parse gen s) st).2.1).filter
             (fun ev => ((ICSHandler.importLoop ICSHandler.listCollab suffix opts
                (ICSParser.parse gen s) st).2.2.map (fun p => p.id)).contains ev.id)) := by
  unfold ICSHandler.importICS ICSHandler.getICSString
  simp only [hm, Bool.false_eq_true, if_false]
  have hget : ICSHandler.listCollab.getEvents
      (ICSHandler.importLoop ICSHandler.listCollab suffix opts
        (ICSParser.parse gen s) st).2.1 =
      .ok (ICSHandler.importLoop ICSHandler.listCollab suffix opts
        (ICSParser.parse gen s) st).2.1 := rfl
  rw [hget]
  dsimp only
  rw [removeMissing_listCollab]
  dsimp only
  congr 2
  apply List.filter_congr
  intro ev hev
  set ids := (ICSHandler.importLoop ICSHandler.listCollab suffix opts
    (ICSParser.parse gen s) st).2.2.map (fun p => p.id) with hids
  by_cases hid : ids.contains ev.id
  · simp only [hid, Bool.true_eq]
    rw [List.all_eq_true]
    intro v hv
    by_cases hveq : v.id = ev.id
    · rw [hveq, hid, Bool.true_or]
    · simp [hveq]
  · simp only [hid, Bool.false_eq]
    rw [← Bool.not_eq_true, List.all_eq_true]
    intro hall
    have := hall ev hev
    simp [hid] at this
    exact hid (by simpa using this)

/-- Witness for C6: a collaborator holding ids 1 and 2, importing a document
whose only event has id 1 with merge = false, keeps 1 and removes 2. -/
theorem c6_witness :
    ICSHandler.importICS ICSHandler.listCollab (jstr "T") (fun _ => jstr "gen")
        (.text (jstr "BEGIN:VEVENT\r\nUID:1\r\nSUMMARY:Standup\r\nEND:VEVENT"))
        { merge := false }
        [{ id := some (jstr "1") }, { id := some (jstr "2") }]
      = .ok ({ imported := [],
               skipped := [({ ICSParser.createEmptyEvent with
                              id := some (jstr "1"),
                              title := some (jstr "Standup") }, jstr "duplicate")],
               updated := [], errors := [] },
             [{ id := some (jstr "1") }]) := by
  rw [c6_merge_false_removal (jstr "T") (fun _ => jstr "gen") _ _ _ rfl]
  rfl

theorem importStep_count {σ : Type} (col : ICSHandler.Collab σ) (suffix : JStr)
    (opts : ICSHandler.ImportOptions) (acc : ICSHandler.ImportResult × σ × List Event)
    (e : Event) :
    ICSHandler.resultCount (ICSHandler.importStep col suffix opts acc e).1 =
      ICSHandler.resultCount acc.1 + 1 := by
  obtain ⟨res, st0, proc⟩ := acc
  unfold ICSHandler.importStep ICSHandler.importStep.importStepAfterRange
    ICSHandler.importStep.importStepMain
  dsimp only
  repeat' split
  all_goals
    simp only [ICSHandler.resultCount, List.length_append, List.length_cons,
      List.length_nil]
  all_goals omega

theorem importLoop_count {σ : Type} (col : ICSHandler.Collab σ) (suffix : JStr)
    (opts : ICSHandler.ImportOptions) (parsed : List Event) :
    ∀ acc : ICSHandler.ImportResult × σ × List Event,
      ICSHandler.resultCount
          (parsed.foldl (ICSHandler.importStep col suffix opts) acc).1 =
        ICSHandler.resultCount acc.1 + parsed.length := by
  induction parsed with
  | nil => intro acc; simp
  | cons e tl ih =>
      intro acc
      simp only [List.foldl_cons, List.length_cons]
      rw [ih, importStep_count]
      omega

theorem removeMissing_total {σ : Type} (col : ICSHandler.Collab σ)
    (hrem : ∀ (s' : σ) (i : Option JStr), ∃ s'', col.removeEvent s' i = .ok s'')
    (ids : List (Option JStr)) :
    ∀ (snap : List Event) (s0 : σ),
      ∃ s2, ICSHandler.removeMissing col ids snap s0 = .ok s2 := by
  intro snap
  induction snap with
  | nil => intro s0; exact ⟨s0, rfl⟩
  | cons v tl ih =>
      intro s0
      unfold ICSHandler.removeMissing at ih ⊢
      rw [List.foldlM_cons]
      by_cases hc : ids.contains v.id
      · simp only [hc, if_true]
        exact ih s0
      · simp only [hc, if_false]
        obtain ⟨s1, hs1⟩ := hrem s0 v.id
        rw [hs1]
        exact ih s1

/-- Claim C4: per-event exceptions during import are caught — every parsed
event lands in exactly one of the four result buckets, so the batch always
completes — and the whole call rejects exactly when acquiring the input
text fails (with the wrapped message): with merge left at its default the
text-input call always returns ok, and with merge = false it still returns
ok for any collaborator whose removal-phase operations do not throw, as the
§6 contract prescribes. -/
theorem c4_per_event_recoverable {σ : Type} (col : ICSHandler.Collab σ)
    (suffix : JStr) (gen : Nat → JStr) (opts : ICSHandler.ImportOptions)
    (s : JStr) (st : σ) :
    (opts.merge = true →
      ∃ r st', ICSHandler.importICS col suffix gen (.text s) opts st = .ok (r, st')) ∧
    (ICSHandler.resultCount
        (ICSHandler.importLoop col suffix opts (ICSParser.parse gen s) st).1 =
      (ICSParser.parse gen s).length) ∧
    (∀ m : JStr, ICSHandler.importICS col suffix gen (.fileRead (.error m)) opts st
        = .error (jstr "ICS import failed: " ++ m)) ∧
    ((∀ s' : σ, ∃ evs, col.getEvents s' = .ok evs) →
     (∀ (s' : σ) (i : Option JStr), ∃ s'', col.removeEvent s' i = .ok s'') →
      ∃ r st', ICSHandler.importICS col suffix gen (.text s) opts st = .ok (r, st')) := by
  refine ⟨fun hm => ⟨_, _, importICS_text_merge col suffix gen s opts st hm⟩, ?_, ?_, ?_⟩
  · have h := importLoop_count col suffix opts (ICSParser.parse gen s)
      ({}, st, [])
    simpa [ICSHandler.importLoop, ICSHandler.resultCount] using h
  · intro m; rfl
  · intro hget hrem
    by_cases hm : opts.merge = true
    · exact ⟨_, _, importICS_text_merge col suffix gen s opts st hm⟩
    · unfold ICSHandler.importICS ICSHandler.getICSString
      have hm' : opts.merge = false := by
        cases hb : opts.merge
        · rfl
        · exact absurd hb hm
      simp only [hm', Bool.false_eq_true, if_false]
      obtain ⟨evs, hevs⟩ := hget
        (ICSHandler.importLoop col suffix opts (ICSParser.parse gen s) st).2.1
      rw [hevs]
      dsimp only
      obtain ⟨s2, hs2⟩ := removeMissing_total col hrem
        ((ICSHandler.importLoop col suffix opts (ICSParser.parse gen s) st).2.2.map
          (fun e => e.id)) evs
        (ICSHandler.importLoop col suffix opts (ICSParser.parse gen s) st).2.1
      rw [hs2]
      exact ⟨_, _, rfl⟩

/-- Witness for C4: a concrete text import with default options returns ok. -/
theorem c4_witness :
    ∃ r st',
      ICSHandler.importICS ICSHandler.listCollab (jstr "T") (fun _ => jstr "gen")
          (.text (jstr "BEGIN:VEVENT\r\nUID:1\r\nEND:VEVENT")) {} ([] : List Event)
        = .ok (r, st') :=
  (c4_per_event_recoverable ICSHandler.listCollab (jstr "T") (fun _ => jstr "gen")
    {} (jstr "BEGIN:VEVENT\r\nUID:1\r\nEND:VEVENT") []).1 rfl

theorem mem_insertLE {α : Type} (le : α → α → Bool) (a x : α) :
    ∀ l : List α, x ∈ EventSearch.insertLE le a l ↔ x = a ∨ x ∈ l := by
  intro l
  induction l with
  | nil => simp [EventSearch.insertLE]
  | cons y ys ih =>
      unfold EventSearch.insertLE
      split
      · simp
      · simp only [List.mem_cons, ih]
        tauto

theorem mem_insertionSortJ {α : Type} (le : α → α → Bool) (x : α) :
    ∀ l : List α, x ∈ EventSearch.insertionSortJ le l ↔ x ∈ l := by
  intro l
  induction l with
  | nil => simp [EventSearch.insertionSortJ]
  | cons y ys ih =>
      unfold EventSearch.insertionSortJ
      rw [mem_insertLE, ih]
      simp

theorem mem_sortResults (rs : List (Event × Nat)) (sortBy : JStr)
    (x : Event × Nat) (hx : x ∈ EventSearch.sortResults rs sortBy) : x ∈ rs := by
  unfold EventSearch.sortResults at hx
  split_ifs at hx <;> first
    | exact (mem_insertionSortJ _ _ _).mp hx
    | exact hx

theorem importStep_processed {σ : Type} (col : ICSHandler.Collab σ)
    (suffix : JStr) (opts : ICSHandler.ImportOptions)
    (hflag : opts.updateExisting = true ∨ opts.skipDuplicates = true)
    (acc : ICSHandler.ImportResult × σ × List Event) (e : Event) :
    (ICSHandler.importStep col suffix opts acc e).2.2 = acc.2.2 ++ [e] := by
  obtain ⟨res, st0, proc⟩ := acc
  unfold ICSHandler.importStep ICSHandler.importStep.importStepAfterRange
    ICSHandler.importStep.importStepMain
  dsimp only
  repeat' split
  all_goals first
    | rfl
    | (rcases hflag with h | h <;> simp_all)


theorem mem_stepDateRange (o : Option EventSearch.DateRange) (evs : List Event)
    (e : Event) (h : e ∈ EventSearch.stepDateRange o evs) : e ∈ evs := by
  unfold EventSearch.stepDateRange at h
  repeat' split at h
  all_goals first
    | exact List.mem_of_mem_filter h
    | exact h

theorem mem_stepCategories (o : Option (List JStr)) (evs : List Event)
    (e : Event) (h : e ∈ EventSearch.stepCategories o evs) : e ∈ evs := by
  unfold EventSearch.stepCategories at h
  repeat' split at h
  all_goals first
    | exact List.mem_of_mem_filter h
    | exact h

theorem mem_stepLocations (o : Option (List JStr)) (evs : List Event)
    (e : Event) (h : e ∈ EventSearch.stepLocations o evs) : e ∈ evs := by
  unfold EventSearch.stepLocations at h
  repeat' split at h
  all_goals first
    | exact List.mem_of_mem_filter h
    | exact h

theorem mem_stepAttendees (o : Option (List JAttendee)) (evs : List Event)
    (e : Event) (h : e ∈ EventSearch.stepAttendees o evs) : e ∈ evs := by
  unfold EventSearch.stepAttendees at h
  repeat' split at h
  all_goals first
    | exact List.mem_of_mem_filter h
    | exact h

theorem mem_stepStatus (o : Option (JStr ⊕ List JStr)) (evs : List Event)
    (e : Event) (h : e ∈ EventSearch.stepStatus o evs) : e ∈ evs := by
  unfold EventSearch.stepStatus at h
  repeat' split at h
  all_goals first
    | exact List.mem_of_mem_filter h
    | exact h

theorem mem_stepAllDay (o : Option Bool) (evs : List Event)
    (e : Event) (h : e ∈ EventSearch.stepAllDay o evs) : e ∈ evs := by
  unfold EventSearch.stepAllDay at h
  repeat' split at h
  all_goals first
    | exact List.mem_of_mem_filter h
    | exact h

theorem mem_stepRecurring (o : Option Bool) (evs : List Event)
    (e : Event) (h : e ∈ EventSearch.stepRecurring o evs) : e ∈ evs := by
  unfold EventSearch.stepRecurring at h
  repeat' split at h
  all_goals first
    | exact List.mem_of_mem_filter h
    | exact h

theorem mem_stepReminders (o : Option Bool) (evs : List Event)
    (e : Event) (h : e ∈ EventSearch.stepReminders o evs) : e ∈ evs := by
  unfold EventSearch.stepReminders at h
  repeat' split at h
  all_goals first
    | exact List.mem_of_mem_filter h
    | exact h

theorem mem_stepCustom (o : Option (Event → Bool)) (evs : List Event)
    (e : Event) (h : e ∈ EventSearch.stepCustom o evs) : e ∈ evs := by
  unfold EventSearch.stepCustom at h
  repeat' split at h
  all_goals first
    | exact List.mem_of_mem_filter h
    | exact h

/-- Claim C10 counterexample: with updateExisting and skipDuplicates both
false and an id collision, the import loop's mirror of the parsedEvents
array differs from the parse output — the clone branch reassigned the
parsed record's id in place. -/
theorem c10_counterexample :
    (ICSHandler.importLoop ICSHandler.listCollab (jstr "T")
        { skipDuplicates := false }
        (ICSParser.parse (fun _ => jstr "gen")
          (jstr "BEGIN:VEVENT\r\nUID:1\r\nEND:VEVENT"))
        [{ id := some (jstr "1") }]).2.2
      ≠ ICSParser.parse (fun _ => jstr "gen")
          (jstr "BEGIN:VEVENT\r\nUID:1\r\nEND:VEVENT") := by
  decide

/-- Claim C10 (amended): search and filter return the caller's records
themselves, unchanged, and import leaves the parsed records unchanged under
any options in which the clone-with-new-id branch cannot fire
(updateExisting or skipDuplicates set); only that branch reassigns a parsed
record's id in place. -/
theorem c10_no_inplace_mutation :
    (∀ (evs : List Event) (f : EventSearch.FilterOptions) (e : Event),
        e ∈ EventSearch.filter evs f → e ∈ evs) ∧
    (∀ (evs : List Event) (q : JStr) (o : EventSearch.SearchOptions) (e : Event),
        e ∈ EventSearch.search evs q o → e ∈ evs) ∧
    (∀ (σ : Type) (col : ICSHandler.Collab σ) (suffix : JStr)
        (opts : ICSHandler.ImportOptions) (parsed : List Event) (st : σ),
        (opts.updateExisting = true ∨ opts.skipDuplicates = true) →
        (ICSHandler.importLoop col suffix opts parsed st).2.2 = parsed) := by
  refine ⟨?_, ?_, ?_⟩
  · intro evs f e he
    unfold EventSearch.filter at he
    exact mem_stepDateRange _ _ _
      (mem_stepCategories _ _ _
        (mem_stepLocations _ _ _
          (mem_stepAttendees _ _ _
            (mem_stepStatus _ _ _
              (mem_stepAllDay _ _ _
                (mem_stepRecurring _ _ _
                  (mem_stepReminders _ _ _
                    (mem_stepCustom _ _ _ he))))))))
  · intro evs q o e he
    unfold EventSearch.search at he
    split at he
    · simp at he
    · obtain ⟨pair, hpair, hfst⟩ := List.mem_map.mp he
      split at hpair
      all_goals try split at hpair
      all_goals try replace hpair := List.mem_of_mem_take hpair
      all_goals obtain ⟨a, ha, hfa⟩ :=
        List.mem_filterMap.mp (mem_sortResults _ _ _ hpair)
      all_goals dsimp only at hfa
      all_goals rw [Option.ite_none_right_eq_some] at hfa
      all_goals obtain ⟨-, hpa⟩ := hfa
      all_goals cases hpa
      all_goals exact hfst ▸ ha
  · intro σ col suffix opts parsed st hflag
    unfold ICSHandler.importLoop
    have main : ∀ (ps : List Event) (acc : ICSHandler.ImportResult × σ × List Event),
        (ps.foldl (ICSHandler.importStep col suffix opts) acc).2.2
          = acc.2.2 ++ ps := by
      intro ps
      induction ps with
      | nil => intro acc; simp
      | cons e tl ih =>
          intro acc
          simp only [List.foldl_cons]
          rw [ih, importStep_processed col suffix opts hflag, List.append_assoc]
          rfl
    simpa using main parsed ({}, st, [])

/-- Witness for C10 at the default options (skipDuplicates true): the
processed array equals the parse output. -/
theorem c10_witness :
    (ICSHandler.importLoop ICSHandler.listCollab (jstr "T") {}
        (ICSParser.parse (fun _ => jstr "gen")
          (jstr "BEGIN:VEVENT\r\nUID:1\r\nEND:VEVENT"))
        [{ id := some (jstr "1") }]).2.2
      = ICSParser.parse (fun _ => jstr "gen")
          (jstr "BEGIN:VEVENT\r\nUID:1\r\nEND:VEVENT") :=
  c10_no_inplace_mutation.2.2 (List Event) ICSHandler.listCollab (jstr "T") {}
    (ICSParser.parse (fun _ => jstr "gen") (jstr "BEGIN:VEVENT\r\nUID:1\r\nEND:VEVENT"))
    [{ id := some (jstr "1") }] (Or.inr rfl)

theorem natDecF_congr (f1 : Nat) : ∀ (f2 n : Nat), n < f1 → n < f2 →
    natDecF f1 n = natDecF f2 n := by
  induction f1 with
  | zero => intro f2 n h1 _; omega
  | succ f1 ih =>
      intro f2 n h1 h2
      cases f2 with
      | zero => omega
      | succ f2 =>
          unfold natDecF
          by_cases hn : n < 10
          · simp [hn]
          · simp only [hn, if_false]
            have hd : n / 10 < n := Nat.div_lt_self (by omega) (by omega)
            rw [ih f2 (n / 10) (by omega) (by omega)]

theorem natDec_eq (n : Nat) :
    natDec n = if n < 10 then [Char.ofNat (48 + n)]
               else natDec (n / 10) ++ [Char.ofNat (48 + n % 10)] := by
  unfold natDec
  rw [show natDecF (n + 1) n
      = if n < 10 then [Char.ofNat (48 + n)]
        else natDecF n (n / 10) ++ [Char.ofNat (48 + n % 10)] from rfl]
  by_cases hn : n < 10
  · simp [hn]
  · simp only [hn, if_false]
    have hd : n / 10 < n := Nat.div_lt_self (by omega) (by omega)
    rw [natDecF_congr n (n / 10 + 1) (n / 10) hd (by omega)]

theorem digit_char_isDigit (d : Nat) (hd : d < 10) :
    isDigitJ (Char.ofNat (48 + d)) = true := by
  interval_cases d <;> decide

theorem digit_char_val (d : Nat) (hd : d < 10) :
    digitVal (Char.ofNat (48 + d)) = d := by
  interval_cases d <;> decide

theorem digit_char_ne (d : Nat) (hd : d < 10) (c : Char)
    (hc : isDigitJ c = false) : Char.ofNat (48 + d) ≠ c := by
  intro h
  rw [← h, digit_char_isDigit d hd] at hc
  exact Bool.true_eq_false.mp hc

theorem natDec_digits (n : Nat) : ∀ c ∈ natDec n, isDigitJ c = true := by
  induction n using Nat.strong_induction_on with
  | _ n ih =>
      intro c hc
      rw [natDec_eq] at hc
      by_cases hn : n < 10
      · simp only [hn, if_true, List.mem_singleton] at hc
        subst hc
        exact digit_char_isDigit n hn
      · simp only [hn, if_false, List.mem_append, List.mem_singleton] at hc
        rcases hc with hc | hc
        · exact ih (n / 10) (Nat.div_lt_self (by omega) (by omega)) c hc
        · subst hc
          exact digit_char_isDigit (n % 10) (Nat.mod_lt n (by omega))

theorem natDec_ne_nil (n : Nat) : natDec n ≠ [] := by
  rw [natDec_eq]
  by_cases hn : n < 10 <;> simp [hn]

theorem natDec_len_1 (n : Nat) (h : n < 10) : (natDec n).length = 1 := by
  rw [natDec_eq]
  simp [h]

theorem natDec_len_2 (n : Nat) (h1 : 10 ≤ n) (h2 : n ≤ 99) :
    (natDec n).length = 2 := by
  rw [natDec_eq]
  have hn : ¬ n < 10 := by omega
  simp only [hn, if_false, List.length_append, List.length_singleton]
  rw [natDec_len_1 (n / 10) (by omega)]

theorem natDec_len_3 (n : Nat) (h1 : 100 ≤ n) (h2 : n ≤ 999) :
    (natDec n).length = 3 := by
  rw [natDec_eq]
  have hn : ¬ n < 10 := by omega
  simp only [hn, if_false, List.length_append, List.length_singleton]
  rw [natDec_len_2 (n / 10) (by omega) (by omega)]

theorem natDec_len_4 (n : Nat) (h1 : 1000 ≤ n) (h2 : n ≤ 9999) :
    (natDec n).length = 4 := by
  rw [natDec_eq]
  have hn : ¬ n < 10 := by omega
  simp only [hn, if_false, List.length_append, List.length_singleton]
  rw [natDec_len_3 (n / 10) (by omega) (by omega)]

theorem natDec_foldl (n : Nat) :
    ∀ acc : Int, (natDec n).foldl (fun a c => a * 10 + (digitVal c : Int)) acc
      = acc * 10 ^ (natDec n).length + n := by
  induction n using Nat.strong_induction_on with
  | _ n ih =>
      intro acc
      rw [natDec_eq]
      by_cases hn : n < 10
      · simp only [hn, if_true, List.foldl_cons, List.foldl_nil,
          List.length_singleton]
        rw [digit_char_val n hn]
        ring
      · simp only [hn, if_false, List.foldl_append, List.foldl_cons,
          List.foldl_nil, List.length_append, List.length_singleton]
        rw [ih (n / 10) (Nat.div_lt_self (by omega) (by omega)),
          digit_char_val (n % 10) (Nat.mod_lt n (by omega))]
        have hmod : (10 : Int) * (↑(n / 10) : Int) + ↑(n % 10) = ↑n := by
          have := Nat.div_add_mod n 10
          omega
        rw [pow_succ]
        generalize (10 : Int) ^ (natDec (n / 10)).length = P
        linarith [hmod]

theorem parseIntJ_natDec (n : Nat) : parseIntJ (natDec n) = some (n : Int) := by
  unfold parseIntJ
  have hall : (natDec n).takeWhile isDigitJ = natDec n :=
    List.takeWhile_eq_self_iff.mpr (natDec_digits n)
  rw [hall]
  have hne : (natDec n).isEmpty = false := by
    cases h : natDec n with
    | nil => exact absurd h (natDec_ne_nil n)
    | cons c tl => rfl
  simp only [hne, if_false, Bool.false_eq_true]
  have := natDec_foldl n 0
  simp at this
  rw [this]

theorem intDec_nonneg (m : Int) (h : 0 ≤ m) : intDec m = natDec m.toNat := by
  unfold intDec
  rw [if_neg (by omega)]

theorem pad2_digits (k : Nat) : ∀ c ∈ padStart2 (natDec k), isDigitJ c = true := by
  intro c hc
  unfold padStart2 at hc
  rcases List.mem_append.mp hc with h | h
  · rw [List.eq_of_mem_replicate h]; decide
  · exact natDec_digits k c h

theorem pad2_len (k : Nat) (hk : k ≤ 99) : (padStart2 (natDec k)).length = 2 := by
  unfold padStart2
  rw [List.length_append, List.length_replicate]
  by_cases h : k < 10
  · rw [natDec_len_1 k h]
  · rw [natDec_len_2 k (by omega) hk]

theorem parseIntJ_pad2 (k : Nat) (hk : k ≤ 99) :
    parseIntJ (padStart2 (natDec k)) = some (k : Int) := by
  by_cases h : k < 10
  · have hlen : (natDec k).length = 1 := natDec_len_1 k h
    have hform : padStart2 (natDec k) = '0' :: natDec k := by
      unfold padStart2; rw [hlen]; rfl
    rw [hform]
    unfold parseIntJ
    have hall : ('0' :: natDec k).takeWhile isDigitJ = '0' :: natDec k :=
      List.takeWhile_eq_self_iff.mpr (by
        intro c hc
        rcases List.mem_cons.mp hc with h0 | h0
        · subst h0; decide
        · exact natDec_digits k c h0)
    rw [hall]
    simp only [List.isEmpty_cons, Bool.false_eq_true, if_false, List.foldl_cons]
    rw [show (0 : Int) * 10 + (digitVal '0' : Int) = 0 from by decide]
    have := natDec_foldl k 0
    rw [this]
    simp
  · have hlen : (natDec k).length = 2 := natDec_len_2 k (by omega) hk
    have hform : padStart2 (natDec k) = natDec k := by
      unfold padStart2; rw [hlen]; rfl
    rw [hform, parseIntJ_natDec]

theorem substr_split (a b : JStr) (k : Nat) : substrJ (a ++ b) a.length k = b.take k := by
  unfold substrJ
  rw [List.drop_left]

theorem formatDate_mk (y mo d h mi s : Int) :
    ICSParser.formatDate (JSDate.mk y mo d h mi s) false =
      intDec y ++ (padStart2 (intDec (mo + 1)) ++ (padStart2 (intDec d) ++
        ('T' :: (padStart2 (intDec h) ++ (padStart2 (intDec mi) ++
          padStart2 (intDec s)))))) := by
  unfold ICSParser.formatDate ICSParser.numS getFullYear getMonth getDate getHours getMinutes getSeconds
  simp [List.append_assoc]

theorem stripTZID_digit (c : Char) (hc : isDigitJ c = true) (l : JStr) :
    ICSParser.stripTZID (c :: l) = c :: l := by
  unfold ICSParser.stripTZID
  rw [show (jstr "TZID=").isPrefixOf (c :: l)
      = (('T' == c) && (jstr "ZID=").isPrefixOf l) from rfl]
  have hcT : ('T' == c) = false := by
    cases hbe : ('T' == c) with
    | false => rfl
    | true =>
        have := eq_of_beq hbe
        rw [← this] at hc
        exact absurd hc (by decide)
  rw [hcT, Bool.false_and]
  simp

theorem parseDate_formatDate (y mo d h mi s : Int) (property : JStr)
    (hprop : includesJ property (jstr "VALUE=DATE") = false)
    (hy1 : 1000 ≤ y) (hy2 : y ≤ 9999) (hmo1 : 0 ≤ mo) (hmo2 : mo ≤ 11)
    (hd1 : 1 ≤ d) (hd2 : d ≤ 31) (hh1 : 0 ≤ h) (hh2 : h ≤ 23)
    (hmi1 : 0 ≤ mi) (hmi2 : mi ≤ 59) (hs1 : 0 ≤ s) (hs2 : s ≤ 59) :
    ICSParser.parseDate (ICSParser.formatDate (JSDate.mk y mo d h mi s) false) property
      = JSDate.mk y mo d h mi s := by
  have hYe : intDec y = natDec y.toNat := intDec_nonneg y (by omega)
  have hMe : intDec (mo + 1) = natDec (mo + 1).toNat := intDec_nonneg _ (by omega)
  have hDe : intDec d = natDec d.toNat := intDec_nonneg d (by omega)
  have hHe : intDec h = natDec h.toNat := intDec_nonneg h (by omega)
  have hMie : intDec mi = natDec mi.toNat := intDec_nonneg mi (by omega)
  have hSe : intDec s = natDec s.toNat := intDec_nonneg s (by omega)
  rw [formatDate_mk, hYe, hMe, hDe, hHe, hMie, hSe]
  set Y := natDec y.toNat with hYdef
  set M := padStart2 (natDec (mo + 1).toNat) with hMdef
  set D := padStart2 (natDec d.toNat) with hDdef
  set H := padStart2 (natDec h.toNat) with hHdef
  set Mi := padStart2 (natDec mi.toNat) with hMidef
  set S := padStart2 (natDec s.toNat) with hSdef
  have hYlen : Y.length = 4 := natDec_len_4 y.toNat (by omega) (by omega)
  have hMlen : M.length = 2 := pad2_len _ (by omega)
  have hDlen : D.length = 2 := pad2_len _ (by omega)
  have hHlen : H.length = 2 := pad2_len _ (by omega)
  have hMilen : Mi.length = 2 := pad2_len _ (by omega)
  have hSlen : S.length = 2 := pad2_len _ (by omega)
  have hYne : Y ≠ [] := natDec_ne_nil y.toNat
  obtain ⟨c, t, hct⟩ : ∃ c t, Y = c :: t := by
    cases hY0 : Y with
    | nil => exact absurd hY0 hYne
    | cons a b => exact ⟨a, b, rfl⟩
  have hcd : isDigitJ c = true := by
    apply natDec_digits y.toNat c
    rw [← hYdef, hct]
    exact List.mem_cons_self c t
  have hstrip : ICSParser.stripTZID (Y ++ (M ++ (D ++ ('T' :: (H ++ (Mi ++ S))))))
      = Y ++ (M ++ (D ++ ('T' :: (H ++ (Mi ++ S))))) := by
    rw [hct, List.cons_append, stripTZID_digit c hcd]
  have hFlen : (Y ++ (M ++ (D ++ ('T' :: (H ++ (Mi ++ S)))))).length = 15 := by
    simp only [List.length_append, List.length_cons, hYlen, hMlen, hDlen, hHlen,
      hMilen, hSlen]
  have h04 : substrJ (Y ++ (M ++ (D ++ ('T' :: (H ++ (Mi ++ S)))))) 0 4 = Y := by
    unfold substrJ
    rw [List.drop_zero, ← hYlen, List.take_left]
  have h42 : substrJ (Y ++ (M ++ (D ++ ('T' :: (H ++ (Mi ++ S)))))) 4 2 = M := by
    have hs := substr_split Y (M ++ (D ++ ('T' :: (H ++ (Mi ++ S))))) 2
    rw [hYlen] at hs
    rw [hs, ← hMlen, List.take_left]
  have h62 : substrJ (Y ++ (M ++ (D ++ ('T' :: (H ++ (Mi ++ S)))))) 6 2 = D := by
    rw [show Y ++ (M ++ (D ++ ('T' :: (H ++ (Mi ++ S)))))
        = (Y ++ M) ++ (D ++ ('T' :: (H ++ (Mi ++ S)))) from by
      simp [List.append_assoc]]
    have hs := substr_split (Y ++ M) (D ++ ('T' :: (H ++ (Mi ++ S)))) 2
    rw [List.length_append, hYlen, hMlen] at hs
    rw [hs, ← hDlen, List.take_left]
  have h92 : substrJ (Y ++ (M ++ (D ++ ('T' :: (H ++ (Mi ++ S)))))) 9 2 = H := by
    rw [show Y ++ (M ++ (D ++ ('T' :: (H ++ (Mi ++ S)))))
        = (((Y ++ M) ++ D) ++ ('T' :: [])) ++ (H ++ (Mi ++ S)) from by
      simp [List.append_assoc]]
    have hs := substr_split ((((Y ++ M) ++ D) ++ ('T' :: []))) (H ++ (Mi ++ S)) 2
    rw [List.length_append, List.length_append, List.length_append, hYlen, hMlen,
      hDlen, List.length_cons, List.length_nil] at hs
    rw [hs, ← hHlen, List.take_left]
  have h112 : substrJ (Y ++ (M ++ (D ++ ('T' :: (H ++ (Mi ++ S)))))) 11 2 = Mi := by
    rw [show Y ++ (M ++ (D ++ ('T' :: (H ++ (Mi ++ S)))))
        = (((Y ++ M) ++ D) ++ ('T' :: H)) ++ (Mi ++ S) from by
      simp [List.append_assoc]]
    have hs := substr_split (((Y ++ M) ++ D) ++ ('T' :: H)) (Mi ++ S) 2
    rw [List.length_append, List.length_append, List.length_append, hYlen, hMlen,
      hDlen, List.length_cons, hHlen] at hs
    rw [hs, ← hMilen, List.take_left]
  have h132 : substrJ (Y ++ (M ++ (D ++ ('T' :: (H ++ (Mi ++ S)))))) 13 2 = S := by
    rw [show Y ++ (M ++ (D ++ ('T' :: (H ++ (Mi ++ S)))))
        = ((((Y ++ M) ++ D) ++ ('T' :: H)) ++ Mi) ++ S from by
      simp [List.append_assoc]]
    have hs := substr_split ((((Y ++ M) ++ D) ++ ('T' :: H)) ++ Mi) S 2
    rw [List.length_append, List.length_append, List.length_append,
      List.length_append, hYlen, hMlen, hDlen, List.length_cons, hHlen,
      hMilen] at hs
    rw [hs, ← hSlen]
    exact List.take_length S
  have hpY : parseIntJ Y = some ((y.toNat : Nat) : Int) := parseIntJ_natDec y.toNat
  have hpM : parseIntJ M = some (((mo + 1).toNat : Nat) : Int) :=
    parseIntJ_pad2 _ (by omega)
  have hpD : parseIntJ D = some ((d.toNat : Nat) : Int) := parseIntJ_pad2 _ (by omega)
  have hpH : parseIntJ H = some ((h.toNat : Nat) : Int) := parseIntJ_pad2 _ (by omega)
  have hpMi : parseIntJ Mi = some ((mi.toNat : Nat) : Int) :=
    parseIntJ_pad2 _ (by omega)
  have hpS : parseIntJ S = some ((s.toNat : Nat) : Int) := parseIntJ_pad2 _ (by omega)
  unfold ICSParser.parseDate
  dsimp only
  rw [hstrip, hprop, hFlen]
  simp only [Bool.false_or]
  rw [if_neg (show ¬(decide ((15 : Nat) = 8) = true) from by decide)]
  rw [h04, h42, h62, h92, h112, h132, hpY, hpM, hpD, hpH, hpMi, hpS]
  rw [show (some (((mo + 1).toNat : Nat) : Int)).map (· - 1)
      = some ((((mo + 1).toNat : Nat) : Int) - 1) from rfl]
  simp only [Option.getD_some]
  rw [ite_self]
  dsimp only [jsDateOpt]
  unfold jsDate6
  rw [if_neg (by omega)]
  simp only [JSDate.mk.injEq]
  omega

theorem idxOf_append_cons (c : Char) (p : JStr) (hp : c ∉ p) (v : JStr) :
    idxOf c (p ++ c :: v) = some p.length := by
  induction p with
  | nil => simp [idxOf]
  | cons x p' ih =>
      have hx : ¬ x = c := fun he => hp (by rw [he]; exact List.mem_cons_self c p')
      have ih' := ih (fun hm => hp (List.mem_cons_of_mem x hm))
      rw [List.cons_append]
      unfold idxOf
      rw [if_neg hx, ih']
      rfl

theorem idxOf_append_ge (c : Char) (p r : JStr) (hp : c ∉ p) :
    ∀ k, idxOf c (p ++ r) = some k → p.length ≤ k := by
  induction p with
  | nil => intro k _; exact Nat.zero_le k
  | cons x p' ih =>
      intro k hk
      have hx : ¬ x = c := fun he => hp (by rw [he]; exact List.mem_cons_self c p')
      rw [List.cons_append] at hk
      unfold idxOf at hk
      rw [if_neg hx] at hk
      cases hik : idxOf c (p' ++ r) with
      | none => rw [hik] at hk; simp at hk
      | some k' =>
          rw [hik] at hk
          rw [show (some k').map (· + 1) = some (k' + 1) from rfl] at hk
          have hkk : k' + 1 = k := by
            simpa using hk
          have := ih (fun hm => hp (List.mem_cons_of_mem x hm)) k' hik
          rw [List.length_cons]
          omega

theorem sepSplit_simple (p v : JStr) (hc : ':' ∉ p) (hs : ';' ∉ p) :
    ICSParser.sepSplit (p ++ ':' :: v) = some (p, v) := by
  unfold ICSParser.sepSplit
  dsimp only
  rw [idxOf_append_cons ':' p hc v]
  cases hsi : idxOf ';' (p ++ ':' :: v) with
  | none =>
      dsimp only
      rw [List.take_left, List.drop_append 1]
      rfl
  | some si =>
      have hge : p.length ≤ si := idxOf_append_ge ';' p (':' :: v) hs si hsi
      dsimp only
      rw [if_neg (show ¬ si < p.length from by omega)]
      dsimp only
      rw [List.take_left, List.drop_append 1]
      rfl

theorem sepSplit_param (p q tz v : JStr) (hpc : ':' ∉ p) (hps : ';' ∉ p)
    (hqc : ':' ∉ q) (htzc : ':' ∉ tz) :
    ICSParser.sepSplit (p ++ ';' :: (q ++ (tz ++ ':' :: v))) = some (p, v) := by
  have hnc : ':' ∉ p ++ ';' :: (q ++ tz) := by
    intro hm
    rcases List.mem_append.mp hm with hm | hm
    · exact hpc hm
    · rcases List.mem_cons.mp hm with hm | hm
      · exact absurd hm.symm (by decide)
      · rcases List.mem_append.mp hm with hm | hm
        · exact hqc hm
        · exact htzc hm
  have hcolon : idxOf ':' (p ++ ';' :: (q ++ (tz ++ ':' :: v)))
      = some (p ++ ';' :: (q ++ tz)).length := by
    rw [show p ++ ';' :: (q ++ (tz ++ ':' :: v))
        = (p ++ ';' :: (q ++ tz)) ++ ':' :: v from by simp [List.append_assoc]]
    exact idxOf_append_cons ':' _ hnc v
  have hsemi : idxOf ';' (p ++ ';' :: (q ++ (tz ++ ':' :: v))) = some p.length :=
    idxOf_append_cons ';' p hps _
  unfold ICSParser.sepSplit
  dsimp only
  rw [hcolon, hsemi]
  dsimp only
  rw [if_pos (show p.length < (p ++ ';' :: (q ++ tz)).length from by
    simp only [List.length_append, List.length_cons]; omega)]
  dsimp only
  rw [List.take_left]
  rw [show p ++ ';' :: (q ++ (tz ++ ':' :: v))
      = (p ++ ';' :: (q ++ tz)) ++ ':' :: v from by simp [List.append_assoc]]
  rw [List.drop_append 1]
  rfl

theorem replace3_cons_skip (a b c : Char) (rep : JStr) (x : Char) (l : JStr)
    (h : ¬(x = a ∧ l.head? = some b ∧ l.tail.head? = some c)) :
    replace3 a b c rep (x :: l) = x :: replace3 a b c rep l := by
  cases l with
  | nil => rfl
  | cons y tl =>
      cases tl with
      | nil => rfl
      | cons z tl' =>
          have hc : ¬(x = a ∧ y = b ∧ z = c) := by simpa using h
          simp [replace3, hc]

theorem replace3_cons_hit (a b c : Char) (rep : JStr) (l : JStr) :
    replace3 a b c rep (a :: b :: c :: l) = rep ++ replace3 a b c rep l := by
  simp [replace3]

theorem replace3_skip (l : JStr) (hl : '\n' ∉ l) (rest : JStr)
    (hr : rest.head? ≠ some '\n') :
    replace3 '\r' '\n' ' ' [] (l ++ rest) = l ++ replace3 '\r' '\n' ' ' [] rest := by
  induction l with
  | nil => rfl
  | cons x l' ih =>
      have hcond : ¬(x = '\r' ∧ (l' ++ rest).head? = some '\n' ∧
          (l' ++ rest).tail.head? = some ' ') := by
        rintro ⟨-, h2, -⟩
        cases l' with
        | nil => exact hr (by simpa using h2)
        | cons y t =>
            have hy : y = '\n' := by simpa using h2
            exact hl (by rw [← hy] at hl ⊢; exact List.mem_cons_of_mem x (List.mem_cons_self y t))
      rw [List.cons_append, replace3_cons_skip _ _ _ _ x _ hcond,
        ih (fun hm => hl (List.mem_cons_of_mem x hm))]
      rfl

theorem replace3_sep (rest : JStr) (hr : rest.head? ≠ some ' ') :
    replace3 '\r' '\n' ' ' [] ('\r' :: '\n' :: rest)
      = '\r' :: '\n' :: replace3 '\r' '\n' ' ' [] rest := by
  rw [replace3_cons_skip _ _ _ _ '\r' _ (by rintro ⟨-, -, h3⟩; exact hr (by simpa using h3)),
    replace3_cons_skip _ _ _ _ '\n' _ (by rintro ⟨h1, -⟩; exact absurd h1 (by decide))]

theorem replace3_consume (tl : JStr) :
    replace3 '\r' '\n' ' ' [] ('\r' :: '\n' :: ' ' :: tl)
      = replace3 '\r' '\n' ' ' [] tl := by
  rw [replace3_cons_hit]
  rfl

theorem replace2_skip_nl (l : JStr) (hl : '\n' ∉ l) (rest : JStr) :
    replace2 '\n' ' ' [] (l ++ rest) = l ++ replace2 '\n' ' ' [] rest := by
  induction l with
  | nil => rfl
  | cons x l' ih =>
      have hx : ¬(x = '\n' ∧ ((l' ++ rest)).head? = some ' ') := by
        rintro ⟨he, -⟩
        exact hl (by rw [he]; exact List.mem_cons_self '\n' l')
      rw [List.cons_append, replace2_cons_skip _ _ _ x _ hx,
        ih (fun hm => hl (List.mem_cons_of_mem x hm))]
      rfl

theorem replace2_sep (rest : JStr) (hr : rest.head? ≠ some ' ') :
    replace2 '\n' ' ' [] ('\r' :: '\n' :: rest)
      = '\r' :: '\n' :: replace2 '\n' ' ' [] rest := by
  rw [replace2_cons_skip _ _ _ '\r' _ (by rintro ⟨h1, -⟩; exact absurd h1 (by decide)),
    replace2_cons_skip _ _ _ '\n' _ (by rintro ⟨-, h2⟩; exact hr h2)]

theorem chunks74_flatten_fuel : ∀ (n : Nat) (rem : JStr), rem.length ≤ n →
    (ICSParser.chunks74 rem).flatten = rem := by
  intro n
  induction n with
  | zero =>
      intro rem h
      have hrem : rem = [] := List.length_eq_zero.mp (Nat.le_zero.mp h)
      subst hrem
      unfold ICSParser.chunks74
      simp
  | succ n ih =>
      intro rem h
      unfold ICSParser.chunks74
      by_cases hr : rem = []
      · simp [hr]
      · rw [dif_neg hr, List.flatten_cons,
          ih (rem.drop 74) (by rw [List.length_drop]; omega)]
        exact List.take_append_drop 74 rem

theorem chunks74_flatten (rem : JStr) : (ICSParser.chunks74 rem).flatten = rem :=
  chunks74_flatten_fuel rem.length rem le_rfl

theorem chunks74_chars : ∀ (n : Nat) (rem : JStr), rem.length ≤ n →
    ∀ c ∈ ICSParser.chunks74 rem, ∀ x ∈ c, x ∈ rem := by
  intro n
  induction n with
  | zero =>
      intro rem h c hc
      have hrem : rem = [] := List.length_eq_zero.mp (Nat.le_zero.mp h)
      subst hrem
      unfold ICSParser.chunks74 at hc
      simp at hc
  | succ n ih =>
      intro rem h c hc x hx
      unfold ICSParser.chunks74 at hc
      by_cases hr : rem = []
      · rw [dif_pos hr] at hc; simp at hc
      · rw [dif_neg hr] at hc
        rcases List.mem_cons.mp hc with hc | hc
        · subst hc; exact List.mem_of_mem_take hx
        · exact List.mem_of_mem_drop
            (ih (rem.drop 74) (by rw [List.length_drop]; omega) c hc x hx)

theorem joinCRLF_cons2 (l r : JStr) (t : List JStr) :
    joinCRLF (l :: r :: t) = l ++ '\r' :: '\n' :: joinCRLF (r :: t) := rfl

theorem joinSep_cons2 (sep l r : JStr) (t : List JStr) :
    joinSep sep (l :: r :: t) = l ++ sep ++ joinSep sep (r :: t) := rfl

theorem joinCRLF_map_space (ch : List JStr) (h : ch ≠ []) :
    joinCRLF (ch.map (fun c => ' ' :: c)) = ' ' :: joinSep ['\r', '\n', ' '] ch := by
  induction ch with
  | nil => exact absurd rfl h
  | cons c cs ih =>
      cases cs with
      | nil => rfl
      | cons c' cs' =>
          rw [List.map_cons, List.map_cons, joinCRLF_cons2,
            show (' ' :: c') :: cs'.map (fun c => ' ' :: c)
              = (c' :: cs').map (fun c => ' ' :: c) from by rw [List.map_cons],
            ih (by simp), joinSep_cons2]
          simp [List.append_assoc]

theorem replace3_glue (ch : List JStr) (hch : ∀ c ∈ ch, '\n' ∉ c) (rest : JStr)
    (hr : rest.head? ≠ some '\n') :
    replace3 '\r' '\n' ' ' [] (joinSep ['\r', '\n', ' '] ch ++ rest)
      = ch.flatten ++ replace3 '\r' '\n' ' ' [] rest := by
  induction ch with
  | nil => rfl
  | cons c cs ih =>
      cases cs with
      | nil =>
          rw [show joinSep ['\r', '\n', ' '] [c] = c from rfl,
            replace3_skip c (hch c (List.mem_cons_self c [])) rest hr]
          simp
      | cons c' cs' =>
          rw [joinSep_cons2,
            show (c ++ ['\r', '\n', ' '] ++ joinSep ['\r', '\n', ' '] (c' :: cs')) ++ rest
              = c ++ ('\r' :: '\n' :: ' ' ::
                  (joinSep ['\r', '\n', ' '] (c' :: cs') ++ rest)) from by
              simp [List.append_assoc],
            replace3_skip c (hch c (List.mem_cons_self c (c' :: cs'))) _ (by simp),
            replace3_consume,
            ih (fun d hm => hch d (List.mem_cons_of_mem c hm))]
          simp [List.append_assoc]

theorem replace3_foldLine (l : JStr) (hl : '\n' ∉ l) (rest : JStr)
    (hr : rest.head? ≠ some '\n') :
    replace3 '\r' '\n' ' ' [] (ICSParser.foldLine l ++ rest)
      = l ++ replace3 '\r' '\n' ' ' [] rest := by
  unfold ICSParser.foldLine ICSParser.piecesOf
  by_cases h75 : l.length ≤ 75
  · rw [if_pos h75, show joinCRLF [l] = l from rfl]
    exact replace3_skip l hl rest hr
  · rw [if_neg h75]
    have hdne : l.drop 75 ≠ [] := by
      intro h0
      have hld : (l.drop 75).length = l.length - 75 := List.length_drop 75 l
      rw [h0] at hld
      simp at hld
      omega
    obtain ⟨c0, ch', hch0⟩ : ∃ c0 ch', ICSParser.chunks74 (l.drop 75) = c0 :: ch' := by
      cases hcks : ICSParser.chunks74 (l.drop 75) with
      | nil =>
          unfold ICSParser.chunks74 at hcks
          rw [dif_neg hdne] at hcks
          exact absurd hcks (by simp)
      | cons a b => exact ⟨a, b, rfl⟩
    have hchars : ∀ c ∈ c0 :: ch', '\n' ∉ c := by
      intro c hc hx
      exact hl (List.mem_of_mem_drop
        (chunks74_chars (l.drop 75).length (l.drop 75) le_rfl c (hch0 ▸ hc) '\n' hx))
    rw [hch0, List.map_cons, joinCRLF_cons2,
      show (' ' :: c0) :: ch'.map (fun c => ' ' :: c)
        = (c0 :: ch').map (fun c => ' ' :: c) from by rw [List.map_cons],
      joinCRLF_map_space (c0 :: ch') (by simp),
      show (l.take 75 ++ '\r' :: '\n' :: (' ' :: joinSep ['\r', '\n', ' '] (c0 :: ch'))) ++ rest
        = l.take 75 ++ ('\r' :: '\n' :: ' ' ::
            (joinSep ['\r', '\n', ' '] (c0 :: ch') ++ rest)) from by
        simp [List.append_assoc],
      replace3_skip (l.take 75) (fun hm => hl (List.mem_of_mem_take hm)) _ (by simp),
      replace3_consume,
      replace3_glue (c0 :: ch') hchars rest hr,
      ← hch0, chunks74_flatten, ← List.append_assoc, List.take_append_drop]

theorem foldLine_head (l : JStr) : (ICSParser.foldLine l).head? = l.head? := by
  unfold ICSParser.foldLine ICSParser.piecesOf
  by_cases h75 : l.length ≤ 75
  · rw [if_pos h75]; rfl
  · rw [if_neg h75]
    cases l with
    | nil => simp at h75
    | cons x t =>
        cases hm : (ICSParser.chunks74 ((x :: t).drop 75)).map (fun c => ' ' :: c) with
        | nil => rfl
        | cons p ps => rfl

theorem joinCRLF_head (L : List JStr) (hL : ∀ l ∈ L, l.head? ≠ some ' ') :
    (joinCRLF L).head? ≠ some ' ' := by
  cases L with
  | nil => simp [joinCRLF]
  | cons l L' =>
      cases L' with
      | nil => exact hL l (List.mem_cons_self l [])
      | cons r t =>
          rw [joinCRLF_cons2]
          cases hl0 : l with
          | nil => rw [List.nil_append]; simp
          | cons a b =>
              rw [List.cons_append]
              have := hL l (List.mem_cons_self l (r :: t))
              rw [hl0] at this
              simpa using this

theorem joinCRLF_fold_head (L : List JStr) (hL : ∀ l ∈ L, l.head? ≠ some ' ') :
    (joinCRLF (L.map ICSParser.foldLine)).head? ≠ some ' ' := by
  cases L with
  | nil => simp [joinCRLF]
  | cons l L' =>
      cases L' with
      | nil =>
          rw [List.map_cons, List.map_nil,
            show joinCRLF [ICSParser.foldLine l] = ICSParser.foldLine l from rfl,
            foldLine_head]
          exact hL l (List.mem_cons_self l [])
      | cons r t =>
          rw [List.map_cons, List.map_cons, joinCRLF_cons2]
          cases hfl : ICSParser.foldLine l with
          | nil => rw [List.nil_append]; simp
          | cons a b =>
              rw [List.cons_append]
              have hfh := foldLine_head l
              rw [hfl] at hfh
              have := hL l (List.mem_cons_self l (r :: t))
              rw [← hfh] at this
              simpa using this

theorem replace3_lines (L : List JStr) (hL : ∀ l ∈ L, '\n' ∉ l ∧ l.head? ≠ some ' ') :
    replace3 '\r' '\n' ' ' [] (joinCRLF (L.map ICSParser.foldLine)) = joinCRLF L := by
  induction L with
  | nil => rfl
  | cons l L' ih =>
      cases L' with
      | nil =>
          rw [List.map_cons, List.map_nil,
            show joinCRLF [ICSParser.foldLine l] = ICSParser.foldLine l from rfl,
            show ICSParser.foldLine l = ICSParser.foldLine l ++ [] from
              (List.append_nil _).symm,
            replace3_foldLine l (hL l (List.mem_cons_self l [])).1 [] (by simp),
            show joinCRLF [l] = l from rfl]
          simp [replace3]
      | cons r t =>
          have hh := joinCRLF_fold_head (r :: t)
            (fun x hm => (hL x (List.mem_cons_of_mem l hm)).2)
          rw [List.map_cons] at hh
          rw [List.map_cons, List.map_cons, joinCRLF_cons2,
            replace3_foldLine l (hL l (List.mem_cons_self l (r :: t))).1 _ (by simp),
            replace3_sep _ hh,
            show ICSParser.foldLine r :: List.map ICSParser.foldLine t
              = List.map ICSParser.foldLine (r :: t) from (List.map_cons _ _ _).symm,
            ih (fun x hm => hL x (List.mem_cons_of_mem l hm)),
            joinCRLF_cons2]

theorem replace2_lines (L : List JStr) (hL : ∀ l ∈ L, '\n' ∉ l ∧ l.head? ≠ some ' ') :
    replace2 '\n' ' ' [] (joinCRLF L) = joinCRLF L := by
  induction L with
  | nil => rfl
  | cons l L' ih =>
      cases L' with
      | nil =>
          rw [show joinCRLF [l] = l from rfl,
            show l = l ++ [] from (List.append_nil _).symm,
            replace2_skip_nl l (hL l (List.mem_cons_self l [])).1 []]
          simp [replace2]
      | cons r t =>
          have hh := joinCRLF_head (r :: t)
            (fun x hm => (hL x (List.mem_cons_of_mem l hm)).2)
          rw [joinCRLF_cons2,
            replace2_skip_nl l (hL l (List.mem_cons_self l (r :: t))).1,
            replace2_sep _ hh,
            ih (fun x hm => hL x (List.mem_cons_of_mem l hm))]

theorem splitNL_cons_other (c : Char) (h1 : c ≠ '\r') (h2 : c ≠ '\n') (tl : JStr) :
    splitNL (c :: tl) = match splitNL tl with
      | [] => [[c]]
      | h :: t => (c :: h) :: t := by
  rw [splitNL.eq_def]
  split
  · rename_i heq; exact absurd heq (by simp)
  · rename_i heq; injection heq with ha _; exact absurd ha h1
  · rename_i heq; injection heq with ha _; exact absurd ha h2
  · rename_i x tl' heq
    injection heq with ha hb
    subst ha
    subst hb
    rfl

theorem splitNL_clean_append (l : JStr) (hn : '\n' ∉ l) (hr : '\r' ∉ l) :
    ∀ rest h t, splitNL rest = h :: t → splitNL (l ++ rest) = (l ++ h) :: t := by
  induction l with
  | nil =>
      intro rest h t hs
      simpa using hs
  | cons x l' ih =>
      intro rest h t hs
      have hx1 : x ≠ '\r' := fun he => hr (by rw [he]; exact List.mem_cons_self '\r' l')
      have hx2 : x ≠ '\n' := fun he => hn (by rw [he]; exact List.mem_cons_self '\n' l')
      have ih' := ih (fun hm => hn (List.mem_cons_of_mem x hm))
        (fun hm => hr (List.mem_cons_of_mem x hm)) rest h t hs
      rw [List.cons_append, splitNL_cons_other x hx1 hx2, ih']
      rfl

theorem splitNL_lines (L : List JStr) (hne : L ≠ [])
    (hL : ∀ l ∈ L, '\n' ∉ l ∧ '\r' ∉ l) :
    splitNL (joinCRLF L) = L := by
  induction L with
  | nil => exact absurd rfl hne
  | cons l L' ih =>
      cases L' with
      | nil =>
          have := splitNL_clean_append l (hL l (List.mem_cons_self l [])).1
            (hL l (List.mem_cons_self l [])).2 [] [] [] rfl
          simpa using this
      | cons r t =>
          rw [joinCRLF_cons2]
          have hsep : splitNL ('\r' :: '\n' :: joinCRLF (r :: t))
              = [] :: splitNL (joinCRLF (r :: t)) := rfl
          have ihr := ih (by simp) (fun x hm => hL x (List.mem_cons_of_mem l hm))
          have happ := splitNL_clean_append l (hL l (List.mem_cons_self l (r :: t))).1
            (hL l (List.mem_cons_self l (r :: t))).2
            ('\r' :: '\n' :: joinCRLF (r :: t)) [] (splitNL (joinCRLF (r :: t))) hsep
          rw [happ, List.append_nil, ihr]

theorem unfold_foldLines (L : List JStr) (hne : L ≠ [])
    (hL : ∀ l ∈ L, '\n' ∉ l ∧ '\r' ∉ l ∧ l.head? ≠ some ' ') :
    ICSParser.unfoldLines (joinCRLF (ICSParser.foldLines L)) = L := by
  unfold ICSParser.unfoldLines ICSParser.foldLines
  rw [replace3_lines L (fun l hm => ⟨(hL l hm).1, (hL l hm).2.2⟩),
    replace2_lines L (fun l hm => ⟨(hL l hm).1, (hL l hm).2.2⟩),
    splitNL_lines L hne (fun l hm => ⟨(hL l hm).1, (hL l hm).2.1⟩)]

theorem truthy_of_ne (l : JStr) (h : l ≠ []) : truthyStr (some l) = true := by
  cases l with
  | nil => exact absurd rfl h
  | cons a b => rfl

theorem allWS_false_head (c : Char) (hc : isWS c = false) (l : JStr) :
    ((c :: l).all isWS) = false := by
  simp [List.all_cons, hc]

theorem natDec_not_mem (c : Char) (hc : isDigitJ c = false) (n : Nat) :
    c ∉ natDec n := by
  intro hm
  have := natDec_digits n c hm
  rw [this] at hc
  simp at hc

theorem intDec_not_mem (c : Char) (hc : isDigitJ c = false) (hm : c ≠ '-') (n : Int) :
    c ∉ intDec n := by
  unfold intDec
  by_cases hn : n < 0
  · rw [if_pos hn]
    intro hmem
    rcases List.mem_cons.mp hmem with h | h
    · exact hm h
    · exact natDec_not_mem c hc _ h
  · rw [if_neg hn]
    exact natDec_not_mem c hc _

theorem numS_not_mem (c : Char) (hc : isDigitJ c = false) (h1 : c ≠ '-')
    (h2 : c ≠ 'N') (h3 : c ≠ 'a') (o : Option Int) : c ∉ ICSParser.numS o := by
  cases o with
  | none =>
      intro hmem
      unfold ICSParser.numS at hmem
      rcases List.mem_cons.mp hmem with h | hmem
      · exact h2 h
      rcases List.mem_cons.mp hmem with h | hmem
      · exact h3 h
      rcases List.mem_cons.mp hmem with h | hmem
      · exact h2 h
      · simp at hmem
  | some n => exact intDec_not_mem c hc h1 n

theorem pad2_not_mem (c : Char) (hc : c ≠ '0') (s : JStr) (hs : c ∉ s) :
    c ∉ padStart2 s := by
  unfold padStart2
  intro hm
  rcases List.mem_append.mp hm with h | h
  · exact hc (List.eq_of_mem_replicate h)
  · exact hs h

theorem formatDate_not_mem (c : Char) (hc : isDigitJ c = false) (h1 : c ≠ '-')
    (h2 : c ≠ 'N') (h3 : c ≠ 'a') (h4 : c ≠ 'T') (h5 : c ≠ '0') (d : JSDate)
    (b : Bool) : c ∉ ICSParser.formatDate d b := by
  have hy := numS_not_mem c hc h1 h2 h3 (getFullYear d)
  have hmo := pad2_not_mem c h5 _ (numS_not_mem c hc h1 h2 h3 ((getMonth d).map (· + 1)))
  have hd := pad2_not_mem c h5 _ (numS_not_mem c hc h1 h2 h3 (getDate d))
  have hh := pad2_not_mem c h5 _ (numS_not_mem c hc h1 h2 h3 (getHours d))
  have hmi := pad2_not_mem c h5 _ (numS_not_mem c hc h1 h2 h3 (getMinutes d))
  have hs := pad2_not_mem c h5 _ (numS_not_mem c hc h1 h2 h3 (getSeconds d))
  unfold ICSParser.formatDate
  dsimp only
  cases b with
  | true =>
      intro hm
      rcases List.mem_append.mp hm with hm | hm
      · rcases List.mem_append.mp hm with hm | hm
        · exact hy hm
        · exact hmo hm
      · exact hd hm
  | false =>
      intro hm
      rcases List.mem_append.mp hm with hm | hm
      · rcases List.mem_append.mp hm with hm | hm
        · rcases List.mem_append.mp hm with hm | hm
          · rcases List.mem_append.mp hm with hm | hm
            · rcases List.mem_append.mp hm with hm | hm
              · rcases List.mem_append.mp hm with hm | hm
                · exact hy hm
                · exact hmo hm
              · exact hd hm
            · rcases List.mem_cons.mp hm with hm | hm
              · exact h4 hm
              · simp at hm
          · exact hh hm
        · exact hmi hm
      · exact hs hm

theorem mem_expandWith (f : Char → JStr) (c : Char) : ∀ l, c ∈ expandWith f l →
    ∃ x ∈ l, c ∈ f x := by
  intro l
  induction l with
  | nil => intro hm; simp [expandWith] at hm
  | cons a t ih =>
      intro hm
      unfold expandWith at hm
      rcases List.mem_append.mp hm with hm | hm
      · exact ⟨a, List.mem_cons_self a t, hm⟩
      · obtain ⟨x, hx, hcx⟩ := ih hm
        exact ⟨x, List.mem_cons_of_mem a hx, hcx⟩

theorem escape_no_nl (t : JStr) : '\n' ∉ escapeText t := by
  rw [escapeText_expand]
  intro hm
  obtain ⟨x, hx, hcx⟩ := mem_expandWith escChar '\n' t hm
  unfold escChar at hcx
  split_ifs at hcx with e1 e2 e3 e4
  · exact absurd hcx (by decide)
  · exact absurd hcx (by decide)
  · exact absurd hcx (by decide)
  · exact absurd hcx (by decide)
  · rw [List.mem_singleton] at hcx
    exact e4 hcx.symm

theorem escape_no_cr (t : JStr) (h : '\r' ∉ t) : '\r' ∉ escapeText t := by
  rw [escapeText_expand]
  intro hm
  obtain ⟨x, hx, hcx⟩ := mem_expandWith escChar '\r' t hm
  unfold escChar at hcx
  split_ifs at hcx with e1 e2 e3 e4
  · exact absurd hcx (by decide)
  · exact absurd hcx (by decide)
  · exact absurd hcx (by decide)
  · exact absurd hcx (by decide)
  · rw [List.mem_singleton] at hcx
    subst hcx
    exact h hx

theorem parseProperty_uid (v : JStr) (ev : Event) :
    ICSParser.parseProperty (jstr "UID") v ev = { ev with id := some v } := rfl

theorem parseProperty_dtstamp (v : JStr) (ev : Event) :
    ICSParser.parseProperty (jstr "DTSTAMP") v ev = ev := rfl

theorem parseProperty_dtstart (v : JStr) (ev : Event) :
    ICSParser.parseProperty (jstr "DTSTART") v ev
      = { ev with start := some (ICSParser.parseDate v (jstr "DTSTART")) } := rfl

theorem parseProperty_dtend (v : JStr) (ev : Event) :
    ICSParser.parseProperty (jstr "DTEND") v ev
      = { ev with end_ := some (ICSParser.parseDate v (jstr "DTEND")) } := rfl

theorem parseProperty_summary (v : JStr) (ev : Event) :
    ICSParser.parseProperty (jstr "SUMMARY") v ev
      = { ev with title := some (unescapeText v) } := rfl

theorem stepLine_outside (gen : Nat → JStr) (st : ICSParser.PState) (line : JStr)
    (hin : st.inEvent = false)
    (hprop : ∀ pv, ICSParser.sepSplit line = some pv →
      pv.1 ≠ jstr "BEGIN" ∧ pv.1 ≠ jstr "END") :
    ICSParser.stepLine gen st line = st := by
  unfold ICSParser.stepLine
  by_cases hws : line.all isWS
  · rw [if_pos hws]
  · rw [if_neg hws]
    cases hsep : ICSParser.sepSplit line with
    | none => rfl
    | some pv =>
        obtain ⟨p, v⟩ := pv
        obtain ⟨hB, hE⟩ := hprop (p, v) hsep
        dsimp only
        rw [if_neg hB, if_neg hE, if_neg (show ¬ (st.inEvent && !st.inAlarm
          && st.current.isSome) = true from by simp [hin])]

theorem stepLine_prop (gen : Nat → JStr) (st : ICSParser.PState) (line p v : JStr)
    (ev : Event) (hws : line.all isWS = false)
    (hsep : ICSParser.sepSplit line = some (p, v))
    (hB : p ≠ jstr "BEGIN") (hE : p ≠ jstr "END")
    (hin : st.inEvent = true) (hal : st.inAlarm = false)
    (hcur : st.current = some ev) :
    ICSParser.stepLine gen st line
      = { st with current := some (ICSParser.parseProperty p v ev) } := by
  unfold ICSParser.stepLine
  rw [if_neg (show ¬ line.all isWS = true from by rw [hws]; simp), hsep]
  dsimp only
  rw [if_neg hB, if_neg hE, if_pos (show (st.inEvent && !st.inAlarm
    && st.current.isSome) = true from by rw [hin, hal, hcur]; rfl), hcur]
  rfl

theorem stepLine_endVEvent (gen : Nat → JStr) (st : ICSParser.PState) (ev : Event)
    (hcur : st.current = some ev) (hid : truthyStr ev.id = true)
    (hti : truthyStr ev.title = true) :
    ICSParser.stepLine gen st (jstr "END:VEVENT")
      = { st with events := st.events ++ [ev], current := none, inEvent := false } := by
  unfold ICSParser.stepLine
  rw [if_neg (show ¬ ((jstr "END:VEVENT").all isWS) = true from by decide),
    show ICSParser.sepSplit (jstr "END:VEVENT")
      = some (jstr "END", jstr "VEVENT") from rfl]
  dsimp only
  rw [if_neg (show ¬ (jstr "END") = jstr "BEGIN" from by decide),
    if_pos (show (jstr "END") = jstr "END" from rfl),
    if_pos (show (jstr "VEVENT") = jstr "VEVENT" from rfl), hcur]
  dsimp only
  unfold ICSParser.normalizeEvent
  rw [if_pos hid]
  dsimp only
  rw [if_pos hti]
  simp

/-- Claim C2 (amended): the datetime round trip holds for an event with a
non-empty id free of line-control characters, a non-empty title free of the
backslash-then-letter-n hazard and of carriage returns, in-range datetime
start and end, no other optional fields, a calendar name free of line
breaks, and an ambient timezone name free of colons and line breaks: parse
of the export yields exactly one event with the same id, title, start and
end (to the second) and `allDay = false`. -/
theorem c2_datetime_roundtrip
    (gen gen2 : Nat → JStr) (now : JSDate) (tz calName id title : JStr)
    (y1 mo1 d1 h1 mi1 s1 y2 mo2 d2 h2 mi2 s2 : Int)
    (hid1 : id ≠ []) (hid2 : '\n' ∉ id) (hid3 : '\r' ∉ id)
    (hti1 : title ≠ []) (hti2 : noBN title) (hti3 : '\r' ∉ title)
    (hnm1 : '\n' ∉ calName) (hnm2 : '\r' ∉ calName)
    (htz1 : ':' ∉ tz) (htz2 : '\n' ∉ tz) (htz3 : '\r' ∉ tz)
    (ha1 : 1000 ≤ y1) (ha2 : y1 ≤ 9999) (ha3 : 0 ≤ mo1) (ha4 : mo1 ≤ 11)
    (ha5 : 1 ≤ d1) (ha6 : d1 ≤ 31) (ha7 : 0 ≤ h1) (ha8 : h1 ≤ 23)
    (ha9 : 0 ≤ mi1) (ha10 : mi1 ≤ 59) (ha11 : 0 ≤ s1) (ha12 : s1 ≤ 59)
    (hb1 : 1000 ≤ y2) (hb2 : y2 ≤ 9999) (hb3 : 0 ≤ mo2) (hb4 : mo2 ≤ 11)
    (hb5 : 1 ≤ d2) (hb6 : d2 ≤ 31) (hb7 : 0 ≤ h2) (hb8 : h2 ≤ 23)
    (hb9 : 0 ≤ mi2) (hb10 : mi2 ≤ 59) (hb11 : 0 ≤ s2) (hb12 : s2 ≤ 59) :
    ∃ r : Event,
      ICSParser.parse gen2 (ICSParser.exportICS gen now tz
          [{ id := some id, title := some title,
             start := some (JSDate.mk y1 mo1 d1 h1 mi1 s1),
             end_ := some (JSDate.mk y2 mo2 d2 h2 mi2 s2), allDay := false }] calName)
        = [r] ∧
      r.id = some id ∧ r.title = some title ∧
      r.start = some (JSDate.mk y1 mo1 d1 h1 mi1 s1) ∧
      r.end_ = some (JSDate.mk y2 mo2 d2 h2 mi2 s2) ∧ r.allDay = false := by
  have htt : truthyStr (some title) = true := truthy_of_ne title hti1
  have hev : ICSParser.eventToICS (gen 0) now tz
      { id := some id, title := some title,
        start := some (JSDate.mk y1 mo1 d1 h1 mi1 s1),
        end_ := some (JSDate.mk y2 mo2 d2 h2 mi2 s2), allDay := false }
      = [jstr "BEGIN:VEVENT", jstr "UID:" ++ id,
         jstr "DTSTAMP:" ++ ICSParser.formatDate now false,
         jstr "DTSTART;TZID=" ++ tz ++ ':' ::
           ICSParser.formatDate (JSDate.mk y1 mo1 d1 h1 mi1 s1) false,
         jstr "DTEND;TZID=" ++ tz ++ ':' ::
           ICSParser.formatDate (JSDate.mk y2 mo2 d2 h2 mi2 s2) false,
         jstr "SUMMARY:" ++ escapeText title, jstr "END:VEVENT"] := by
    unfold ICSParser.eventToICS
    dsimp only
    rw [if_pos hid1, htt]
    rfl
  have hexp : ICSParser.exportICS gen now tz
      [{ id := some id, title := some title,
         start := some (JSDate.mk y1 mo1 d1 h1 mi1 s1),
         end_ := some (JSDate.mk y2 mo2 d2 h2 mi2 s2), allDay := false }] calName
      = joinCRLF (ICSParser.foldLines
          [jstr "BEGIN:VCALENDAR", jstr "VERSION:2.0",
           jstr "PRODID:-//Force Calendar Core//EN", jstr "X-WR-CALNAME:" ++ calName,
           jstr "METHOD:PUBLISH", jstr "BEGIN:VEVENT", jstr "UID:" ++ id,
           jstr "DTSTAMP:" ++ ICSParser.formatDate now false,
           jstr "DTSTART;TZID=" ++ tz ++ ':' ::
             ICSParser.formatDate (JSDate.mk y1 mo1 d1 h1 mi1 s1) false,
           jstr "DTEND;TZID=" ++ tz ++ ':' ::
             ICSParser.formatDate (JSDate.mk y2 mo2 d2 h2 mi2 s2) false,
           jstr "SUMMARY:" ++ escapeText title,
           jstr "END:VEVENT", jstr "END:VCALENDAR"]) := by
    unfold ICSParser.exportICS
    dsimp only
    rw [show ∀ (e : Event), ((List.enum [e]).map (fun p => ICSParser.eventToICS (gen p.1) now tz p.2)) = [ICSParser.eventToICS (gen 0) now tz e] from fun e => rfl]
    rw [hev]
    rfl
  have hF0n : '\n' ∉ ICSParser.formatDate now false :=
    formatDate_not_mem '\n' (by decide) (by decide) (by decide) (by decide) (by decide) (by decide) now false
  have hF0r : '\r' ∉ ICSParser.formatDate now false :=
    formatDate_not_mem '\r' (by decide) (by decide) (by decide) (by decide) (by decide) (by decide) now false
  have hF1n : '\n' ∉ ICSParser.formatDate (JSDate.mk y1 mo1 d1 h1 mi1 s1) false :=
    formatDate_not_mem '\n' (by decide) (by decide) (by decide) (by decide) (by decide) (by decide) _ false
  have hF1r : '\r' ∉ ICSParser.formatDate (JSDate.mk y1 mo1 d1 h1 mi1 s1) false :=
    formatDate_not_mem '\r' (by decide) (by decide) (by decide) (by decide) (by decide) (by decide) _ false
  have hF2n : '\n' ∉ ICSParser.formatDate (JSDate.mk y2 mo2 d2 h2 mi2 s2) false :=
    formatDate_not_mem '\n' (by decide) (by decide) (by decide) (by decide) (by decide) (by decide) _ false
  have hF2r : '\r' ∉ ICSParser.formatDate (JSDate.mk y2 mo2 d2 h2 mi2 s2) false :=
    formatDate_not_mem '\r' (by decide) (by decide) (by decide) (by decide) (by decide) (by decide) _ false
  have hescn := escape_no_nl title
  have hescr := escape_no_cr title hti3
  have hcond : ∀ l ∈ ([jstr "BEGIN:VCALENDAR", jstr "VERSION:2.0", jstr "PRODID:-//Force Calendar Core//EN", jstr "X-WR-CALNAME:" ++ calName, jstr "METHOD:PUBLISH", jstr "BEGIN:VEVENT", jstr "UID:" ++ id, jstr "DTSTAMP:" ++ ICSParser.formatDate now false, jstr "DTSTART;TZID=" ++ tz ++ ':' :: ICSParser.formatDate (JSDate.mk y1 mo1 d1 h1 mi1 s1) false, jstr "DTEND;TZID=" ++ tz ++ ':' :: ICSParser.formatDate (JSDate.mk y2 mo2 d2 h2 mi2 s2) false, jstr "SUMMARY:" ++ escapeText title, jstr "END:VEVENT", jstr "END:VCALENDAR"] : List JStr), '\n' ∉ l ∧ '\r' ∉ l ∧ l.head? ≠ some ' ' := by
    intro l hl
    simp only [List.mem_cons, List.not_mem_nil, or_false] at hl
    rcases hl with rfl | rfl | rfl | rfl | rfl | rfl | rfl | rfl | rfl | rfl | rfl | rfl | rfl
    · exact ⟨by decide, by decide, by decide⟩
    · exact ⟨by decide, by decide, by decide⟩
    · exact ⟨by decide, by decide, by decide⟩
    · refine ⟨?_, ?_, ?_⟩
      · intro hm
        rcases List.mem_append.mp hm with h | h
        · exact absurd h (by decide)
        · exact hnm1 h
      · intro hm
        rcases List.mem_append.mp hm with h | h
        · exact absurd h (by decide)
        · exact hnm2 h
      · show (some 'X' : Option Char) ≠ some ' '
        decide
    · exact ⟨by decide, by decide, by decide⟩
    · exact ⟨by decide, by decide, by decide⟩
    · refine ⟨?_, ?_, ?_⟩
      · intro hm
        rcases List.mem_append.mp hm with h | h
        · exact absurd h (by decide)
        · exact hid2 h
      · intro hm
        rcases List.mem_append.mp hm with h | h
        · exact absurd h (by decide)
        · exact hid3 h
      · show (some 'U' : Option Char) ≠ some ' '
        decide
    · refine ⟨?_, ?_, ?_⟩
      · intro hm
        rcases List.mem_append.mp hm with h | h
        · exact absurd h (by decide)
        · exact hF0n h
      · intro hm
        rcases List.mem_append.mp hm with h | h
        · exact absurd h (by decide)
        · exact hF0r h
      · show (some 'D' : Option Char) ≠ some ' '
        decide
    · refine ⟨?_, ?_, ?_⟩
      · intro hm
        rcases List.mem_append.mp hm with h | h
        · rcases List.mem_append.mp h with h2 | h2
          · exact absurd h2 (by decide)
          · exact htz2 h2
        · rcases List.mem_cons.mp h with h2 | h2
          · exact absurd h2 (by decide)
          · exact hF1n h2
      · intro hm
        rcases List.mem_append.mp hm with h | h
        · rcases List.mem_append.mp h with h2 | h2
          · exact absurd h2 (by decide)
          · exact htz3 h2
        · rcases List.mem_cons.mp h with h2 | h2
          · exact absurd h2 (by decide)
          · exact hF1r h2
      · show (some 'D' : Option Char) ≠ some ' '
        decide
    · refine ⟨?_, ?_, ?_⟩
      · intro hm
        rcases List.mem_append.mp hm with h | h
        · rcases List.mem_append.mp h with h2 | h2
          · exact absurd h2 (by decide)
          · exact htz2 h2
        · rcases List.mem_cons.mp h with h2 | h2
          · exact absurd h2 (by decide)
          · exact hF2n h2
      · intro hm
        rcases List.mem_append.mp hm with h | h
        · rcases List.mem_append.mp h with h2 | h2
          · exact absurd h2 (by decide)
          · exact htz3 h2
        · rcases List.mem_cons.mp h with h2 | h2
          · exact absurd h2 (by decide)
          · exact hF2r h2
      · show (some 'D' : Option Char) ≠ some ' '
        decide
    · refine ⟨?_, ?_, ?_⟩
      · intro hm
        rcases List.mem_append.mp hm with h | h
        · exact absurd h (by decide)
        · exact hescn h
      · intro hm
        rcases List.mem_append.mp hm with h | h
        · exact absurd h (by decide)
        · exact hescr h
      · show (some 'S' : Option Char) ≠ some ' '
        decide
    · exact ⟨by decide, by decide, by decide⟩
    · exact ⟨by decide, by decide, by decide⟩
  have hunf : ICSParser.unfoldLines (joinCRLF (ICSParser.foldLines ([jstr "BEGIN:VCALENDAR", jstr "VERSION:2.0", jstr "PRODID:-//Force Calendar Core//EN", jstr "X-WR-CALNAME:" ++ calName, jstr "METHOD:PUBLISH", jstr "BEGIN:VEVENT", jstr "UID:" ++ id, jstr "DTSTAMP:" ++ ICSParser.formatDate now false, jstr "DTSTART;TZID=" ++ tz ++ ':' :: ICSParser.formatDate (JSDate.mk y1 mo1 d1 h1 mi1 s1) false, jstr "DTEND;TZID=" ++ tz ++ ':' :: ICSParser.formatDate (JSDate.mk y2 mo2 d2 h2 mi2 s2) false, jstr "SUMMARY:" ++ escapeText title, jstr "END:VEVENT", jstr "END:VCALENDAR"] : List JStr))) = ([jstr "BEGIN:VCALENDAR", jstr "VERSION:2.0", jstr "PRODID:-//Force Calendar Core//EN", jstr "X-WR-CALNAME:" ++ calName, jstr "METHOD:PUBLISH", jstr "BEGIN:VEVENT", jstr "UID:" ++ id, jstr "DTSTAMP:" ++ ICSParser.formatDate now false, jstr "DTSTART;TZID=" ++ tz ++ ':' :: ICSParser.formatDate (JSDate.mk y1 mo1 d1 h1 mi1 s1) false, jstr "DTEND;TZID=" ++ tz ++ ':' :: ICSParser.formatDate (JSDate.mk y2 mo2 d2 h2 mi2 s2) false, jstr "SUMMARY:" ++ escapeText title, jstr "END:VEVENT", jstr "END:VCALENDAR"] : List JStr) :=
    unfold_foldLines _ (by simp) hcond
  have st1 : ICSParser.stepLine gen2 ICSParser.initPState (jstr "BEGIN:VCALENDAR") = ICSParser.initPState := rfl
  have st2 : ICSParser.stepLine gen2 ICSParser.initPState (jstr "VERSION:2.0") = ICSParser.initPState := rfl
  have st3 : ICSParser.stepLine gen2 ICSParser.initPState (jstr "PRODID:-//Force Calendar Core//EN") = ICSParser.initPState := rfl
  have st4 : ICSParser.stepLine gen2 ICSParser.initPState (jstr "X-WR-CALNAME:" ++ calName) = ICSParser.initPState := by
    apply stepLine_outside _ _ _ rfl
    intro pv hpv
    rw [show jstr "X-WR-CALNAME:" ++ calName = jstr "X-WR-CALNAME" ++ ':' :: calName from rfl,
      sepSplit_simple _ _ (by decide) (by decide)] at hpv
    injection hpv with h
    subst h
    exact ⟨(by decide : jstr "X-WR-CALNAME" ≠ jstr "BEGIN"),
      (by decide : jstr "X-WR-CALNAME" ≠ jstr "END")⟩
  have st5 : ICSParser.stepLine gen2 ICSParser.initPState (jstr "METHOD:PUBLISH") = ICSParser.initPState := rfl
  have st6 : ICSParser.stepLine gen2 ICSParser.initPState (jstr "BEGIN:VEVENT") = { events := [], current := some ICSParser.createEmptyEvent, inEvent := true, inAlarm := false, genCount := 0 } := rfl
  have st7 : ICSParser.stepLine gen2 { events := [], current := some ICSParser.createEmptyEvent, inEvent := true, inAlarm := false, genCount := 0 } (jstr "UID:" ++ id) = { events := [], current := some { ICSParser.createEmptyEvent with id := some id }, inEvent := true, inAlarm := false, genCount := 0 } := by
    rw [show jstr "UID:" ++ id = jstr "UID" ++ ':' :: id from rfl]
    refine stepLine_prop gen2 _ _ (jstr "UID") id ICSParser.createEmptyEvent ?_ ?_ ?_ ?_ ?_ ?_ ?_
    · exact allWS_false_head 'U' (by decide) _
    · exact sepSplit_simple _ _ (by decide) (by decide)
    · decide
    · decide
    · rfl
    · rfl
    · rfl
  have st8 : ICSParser.stepLine gen2 { events := [], current := some { ICSParser.createEmptyEvent with id := some id }, inEvent := true, inAlarm := false, genCount := 0 } (jstr "DTSTAMP:" ++ ICSParser.formatDate now false) = { events := [], current := some { ICSParser.createEmptyEvent with id := some id }, inEvent := true, inAlarm := false, genCount := 0 } := by
    rw [show jstr "DTSTAMP:" ++ ICSParser.formatDate now false = jstr "DTSTAMP" ++ ':' :: ICSParser.formatDate now false from rfl]
    refine stepLine_prop gen2 _ _ (jstr "DTSTAMP") (ICSParser.formatDate now false) { ICSParser.createEmptyEvent with id := some id } ?_ ?_ ?_ ?_ ?_ ?_ ?_
    · exact allWS_false_head 'D' (by decide) _
    · exact sepSplit_simple _ _ (by decide) (by decide)
    · decide
    · decide
    · rfl
    · rfl
    · rfl
  have st9 : ICSParser.stepLine gen2 { events := [], current := some { ICSParser.createEmptyEvent with id := some id }, inEvent := true, inAlarm := false, genCount := 0 } (jstr "DTSTART;TZID=" ++ tz ++ ':' :: ICSParser.formatDate (JSDate.mk y1 mo1 d1 h1 mi1 s1) false) = { events := [], current := some { { ICSParser.createEmptyEvent with id := some id } with start := some (ICSParser.parseDate (ICSParser.formatDate (JSDate.mk y1 mo1 d1 h1 mi1 s1) false) (jstr "DTSTART")) }, inEvent := true, inAlarm := false, genCount := 0 } := by
    rw [show jstr "DTSTART;TZID=" ++ tz ++ ':' :: ICSParser.formatDate (JSDate.mk y1 mo1 d1 h1 mi1 s1) false = jstr "DTSTART" ++ ';' :: (jstr "TZID=" ++ (tz ++ ':' :: ICSParser.formatDate (JSDate.mk y1 mo1 d1 h1 mi1 s1) false)) from rfl]
    refine stepLine_prop gen2 _ _ (jstr "DTSTART") (ICSParser.formatDate (JSDate.mk y1 mo1 d1 h1 mi1 s1) false) { ICSParser.createEmptyEvent with id := some id } ?_ ?_ ?_ ?_ ?_ ?_ ?_
    · exact allWS_false_head 'D' (by decide) _
    · exact sepSplit_param _ _ tz _ (by decide) (by decide) (by decide) htz1
    · decide
    · decide
    · rfl
    · rfl
    · rfl
  have st10 : ICSParser.stepLine gen2 { events := [], current := some { { ICSParser.createEmptyEvent with id := some id } with start := some (ICSParser.parseDate (ICSParser.formatDate (JSDate.mk y1 mo1 d1 h1 mi1 s1) false) (jstr "DTSTART")) }, inEvent := true, inAlarm := false, genCount := 0 } (jstr "DTEND;TZID=" ++ tz ++ ':' :: ICSParser.formatDate (JSDate.mk y2 mo2 d2 h2 mi2 s2) false) = { events := [], current := some { { { ICSParser.createEmptyEvent with id := some id } with start := some (ICSParser.parseDate (ICSParser.formatDate (JSDate.mk y1 mo1 d1 h1 mi1 s1) false) (jstr "DTSTART")) } with end_ := some (ICSParser.parseDate (ICSParser.formatDate (JSDate.mk y2 mo2 d2 h2 mi2 s2) false) (jstr "DTEND")) }, inEvent := true, inAlarm := false, genCount := 0 } := by
    rw [show jstr "DTEND;TZID=" ++ tz ++ ':' :: ICSParser.formatDate (JSDate.mk y2 mo2 d2 h2 mi2 s2) false = jstr "DTEND" ++ ';' :: (jstr "TZID=" ++ (tz ++ ':' :: ICSParser.formatDate (JSDate.mk y2 mo2 d2 h2 mi2 s2) false)) from rfl]
    refine stepLine_prop gen2 _ _ (jstr "DTEND") (ICSParser.formatDate (JSDate.mk y2 mo2 d2 h2 mi2 s2) false) { { ICSParser.createEmptyEvent with id := some id } with start := some (ICSParser.parseDate (ICSParser.formatDate (JSDate.mk y1 mo1 d1 h1 mi1 s1) false) (jstr "DTSTART")) } ?_ ?_ ?_ ?_ ?_ ?_ ?_
    · exact allWS_false_head 'D' (by decide) _
    · exact sepSplit_param _ _ tz _ (by decide) (by decide) (by decide) htz1
    · decide
    · decide
    · rfl
    · rfl
    · rfl
  have st11 : ICSParser.stepLine gen2 { events := [], current := some { { { ICSParser.createEmptyEvent with id := some id } with start := some (ICSParser.parseDate (ICSParser.formatDate (JSDate.mk y1 mo1 d1 h1 mi1 s1) false) (jstr "DTSTART")) } with end_ := some (ICSParser.parseDate (ICSParser.formatDate (JSDate.mk y2 mo2 d2 h2 mi2 s2) false) (jstr "DTEND")) }, inEvent := true, inAlarm := false, genCount := 0 } (jstr "SUMMARY:" ++ escapeText title) = { events := [], current := some { { { { ICSParser.createEmptyEvent with id := some id } with start := some (ICSParser.parseDate (ICSParser.formatDate (JSDate.mk y1 mo1 d1 h1 mi1 s1) false) (jstr "DTSTART")) } with end_ := some (ICSParser.parseDate (ICSParser.formatDate (JSDate.mk y2 mo2 d2 h2 mi2 s2) false) (jstr "DTEND")) } with title := some (unescapeText (escapeText title)) }, inEvent := true, inAlarm := false, genCount := 0 } := by
    rw [show jstr "SUMMARY:" ++ escapeText title = jstr "SUMMARY" ++ ':' :: escapeText title from rfl]
    refine stepLine_prop gen2 _ _ (jstr "SUMMARY") (escapeText title) { { { ICSParser.createEmptyEvent with id := some id } with start := some (ICSParser.parseDate (ICSParser.formatDate (JSDate.mk y1 mo1 d1 h1 mi1 s1) false) (jstr "DTSTART")) } with end_ := some (ICSParser.parseDate (ICSParser.formatDate (JSDate.mk y2 mo2 d2 h2 mi2 s2) false) (jstr "DTEND")) } ?_ ?_ ?_ ?_ ?_ ?_ ?_
    · exact allWS_false_head 'S' (by decide) _
    · exact sepSplit_simple _ _ (by decide) (by decide)
    · decide
    · decide
    · rfl
    · rfl
    · rfl
  have st12 : ICSParser.stepLine gen2 { events := [], current := some { { { { ICSParser.createEmptyEvent with id := some id } with start := some (ICSParser.parseDate (ICSParser.formatDate (JSDate.mk y1 mo1 d1 h1 mi1 s1) false) (jstr "DTSTART")) } with end_ := some (ICSParser.parseDate (ICSParser.formatDate (JSDate.mk y2 mo2 d2 h2 mi2 s2) false) (jstr "DTEND")) } with title := some (unescapeText (escapeText title)) }, inEvent := true, inAlarm := false, genCount := 0 } (jstr "END:VEVENT") = { events := [{ { { { ICSParser.createEmptyEvent with id := some id } with start := some (ICSParser.parseDate (ICSParser.formatDate (JSDate.mk y1 mo1 d1 h1 mi1 s1) false) (jstr "DTSTART")) } with end_ := some (ICSParser.parseDate (ICSParser.formatDate (JSDate.mk y2 mo2 d2 h2 mi2 s2) false) (jstr "DTEND")) } with title := some (unescapeText (escapeText title)) }], current := none, inEvent := false, inAlarm := false, genCount := 0 } := by
    refine stepLine_endVEvent gen2 _ { { { { ICSParser.createEmptyEvent with id := some id } with start := some (ICSParser.parseDate (ICSParser.formatDate (JSDate.mk y1 mo1 d1 h1 mi1 s1) false) (jstr "DTSTART")) } with end_ := some (ICSParser.parseDate (ICSParser.formatDate (JSDate.mk y2 mo2 d2 h2 mi2 s2) false) (jstr "DTEND")) } with title := some (unescapeText (escapeText title)) } ?_ ?_ ?_
    · rfl
    · exact truthy_of_ne id hid1
    · show truthyStr (some (unescapeText (escapeText title))) = true
      rw [unescape_escape title hti2]
      exact truthy_of_ne title hti1
  have st13 : ICSParser.stepLine gen2 { events := [{ { { { ICSParser.createEmptyEvent with id := some id } with start := some (ICSParser.parseDate (ICSParser.formatDate (JSDate.mk y1 mo1 d1 h1 mi1 s1) false) (jstr "DTSTART")) } with end_ := some (ICSParser.parseDate (ICSParser.formatDate (JSDate.mk y2 mo2 d2 h2 mi2 s2) false) (jstr "DTEND")) } with title := some (unescapeText (escapeText title)) }], current := none, inEvent := false, inAlarm := false, genCount := 0 } (jstr "END:VCALENDAR") = { events := [{ { { { ICSParser.createEmptyEvent with id := some id } with start := some (ICSParser.parseDate (ICSParser.formatDate (JSDate.mk y1 mo1 d1 h1 mi1 s1) false) (jstr "DTSTART")) } with end_ := some (ICSParser.parseDate (ICSParser.formatDate (JSDate.mk y2 mo2 d2 h2 mi2 s2) false) (jstr "DTEND")) } with title := some (unescapeText (escapeText title)) }], current := none, inEvent := false, inAlarm := false, genCount := 0 } := rfl
  have hparse : ICSParser.parse gen2 (ICSParser.exportICS gen now tz [{ id := some id, title := some title, start := some (JSDate.mk y1 mo1 d1 h1 mi1 s1), end_ := some (JSDate.mk y2 mo2 d2 h2 mi2 s2), allDay := false }] calName) = [{ { { { ICSParser.createEmptyEvent with id := some id } with start := some (ICSParser.parseDate (ICSParser.formatDate (JSDate.mk y1 mo1 d1 h1 mi1 s1) false) (jstr "DTSTART")) } with end_ := some (ICSParser.parseDate (ICSParser.formatDate (JSDate.mk y2 mo2 d2 h2 mi2 s2) false) (jstr "DTEND")) } with title := some (unescapeText (escapeText title)) }] := by
    rw [hexp]
    unfold ICSParser.parse
    rw [hunf]
    simp only [List.foldl_cons, List.foldl_nil]
    rw [st1, st2, st3, st4, st5, st6, st7, st8, st9, st10, st11, st12, st13]
  have hpd1 : ICSParser.parseDate (ICSParser.formatDate (JSDate.mk y1 mo1 d1 h1 mi1 s1) false) (jstr "DTSTART") = JSDate.mk y1 mo1 d1 h1 mi1 s1 :=
    parseDate_formatDate y1 mo1 d1 h1 mi1 s1 _ (by decide) ha1 ha2 ha3 ha4 ha5 ha6 ha7 ha8 ha9 ha10 ha11 ha12
  have hpd2 : ICSParser.parseDate (ICSParser.formatDate (JSDate.mk y2 mo2 d2 h2 mi2 s2) false) (jstr "DTEND") = JSDate.mk y2 mo2 d2 h2 mi2 s2 :=
    parseDate_formatDate y2 mo2 d2 h2 mi2 s2 _ (by decide) hb1 hb2 hb3 hb4 hb5 hb6 hb7 hb8 hb9 hb10 hb11 hb12
  have huns : unescapeText (escapeText title) = title := unescape_escape title hti2
  refine ⟨{ ICSParser.createEmptyEvent with id := some id, start := some (JSDate.mk y1 mo1 d1 h1 mi1 s1), end_ := some (JSDate.mk y2 mo2 d2 h2 mi2 s2), title := some title }, ?_, rfl, rfl, rfl, rfl, rfl⟩
  rw [hparse, hpd1, hpd2, huns]

/-- Claim C2 counterexample: two concrete events with an id, a non-empty
title, a datetime start, an end and no other optional fields on which
`parse (export [e])` does not restore the claimed fields: a title made of a
backslash followed by the letter n comes back with the n turned into a
newline (the C5 escaping hazard), and an id containing a newline character
is cut at the injected line break. -/
theorem c2_counterexample :
    (ICSParser.parse (fun _ => jstr "g")
        (ICSParser.exportICS (fun _ => jstr "u") (JSDate.mk 2024 0 1 0 0 0) (jstr "UTC")
          [{ id := some (jstr "1"), title := some ['\\', 'n'],
             start := some (JSDate.mk 2024 0 1 10 0 0),
             end_ := some (JSDate.mk 2024 0 1 11 0 0), allDay := false }]
          (jstr "Cal"))).map (fun r => r.title) ≠ [some ['\\', 'n']] ∧
    (ICSParser.parse (fun _ => jstr "g")
        (ICSParser.exportICS (fun _ => jstr "u") (JSDate.mk 2024 0 1 0 0 0) (jstr "UTC")
          [{ id := some ['a', '\n', 'b'], title := some (jstr "T"),
             start := some (JSDate.mk 2024 0 1 10 0 0),
             end_ := some (JSDate.mk 2024 0 1 11 0 0), allDay := false }]
          (jstr "Cal"))).map (fun r => r.id) ≠ [some ['a', '\n', 'b']] := by
  decide

/-- Witness: the amended C2 round-trip theorem applied at a concrete event,
calendar name and timezone. -/
theorem c2_datetime_roundtrip_witness :
    ∃ r : Event,
      ICSParser.parse (fun _ => jstr "g")
          (ICSParser.exportICS (fun _ => jstr "u") (JSDate.mk 2024 0 1 0 0 0) (jstr "UTC")
            [{ id := some (jstr "1"), title := some (jstr "Standup"),
               start := some (JSDate.mk 2024 0 1 10 0 0),
               end_ := some (JSDate.mk 2024 0 1 11 0 0), allDay := false }]
            (jstr "Cal"))
        = [r] ∧
      r.id = some (jstr "1") ∧ r.title = some (jstr "Standup") ∧
      r.start = some (JSDate.mk 2024 0 1 10 0 0) ∧
      r.end_ = some (JSDate.mk 2024 0 1 11 0 0) ∧ r.allDay = false :=
  c2_datetime_roundtrip (fun _ => jstr "u") (fun _ => jstr "g")
    (JSDate.mk 2024 0 1 0 0 0) (jstr "UTC") (jstr "Cal") (jstr "1") (jstr "Standup")
    2024 0 1 10 0 0 2024 0 1 11 0 0
    (by decide) (by decide) (by decide) (by decide) (by decide) (by decide)
    (by decide) (by decide) (by decide) (by decide) (by decide)
    (by decide) (by decide) (by decide) (by decide) (by decide) (by decide)
    (by decide) (by decide) (by decide) (by decide) (by decide) (by decide)
    (by decide) (by decide) (by decide) (by decide) (by decide) (by decide)
    (by decide) (by decide) (by decide) (by decide) (by decide) (by decide)
